import Mathlib

/-!
Verification development for the apifox-ts-gen generator.

This file shallowly embeds the schema-to-type resolution engine
(`src/core/generator.ts`), the client generator (`src/core/serviceGenerator.ts`)
and the identifier synthesizers (`src/utils/formatters.ts`) as executable Lean
definitions, and proves or refutes the frozen claims about them.

Modelling conventions:
* JS strings are Lean `String`s; the character-level JS operations used by the
  source (`split`, `toUpperCase`, `toLowerCase`, `replace` on one occurrence,
  the lodash `camelCase`/`upperFirst` helpers) are modelled for the ASCII
  fragment: `lodash.deburr` is the identity on ASCII and is modelled as the
  identity, and JS case mapping agrees with ASCII case mapping there.
  Theorems that depend on case mapping or word splitting therefore carry an
  all-ASCII hypothesis on the relevant inputs.
* JS objects holding schema data are modelled by the `Schema` inductive with
  one `Option` field per probed key; JS truthiness of a string-valued field is
  `strTruthy` (present and non-empty), and `a || b` on strings is `jsOrStr`.
* JS `Object.entries` iteration is modelled by association-list order.  For
  response objects, JS puts integer-like keys ("200") first in ascending
  order; the selection below sorts candidates by the same rank the source
  computes, so the result does not depend on that reordering.
* Mutation of the shared `processedRefs` set and of the registry is modelled
  by explicit state passing (`GenState`); thrown-and-caught JS `TypeError`s
  are modelled by `Option`/`none` results where the source can throw.
-/

/-! ### ASCII character classes and JS case mapping -/

def isAsciiUpper (c : Char) : Bool := 65 ≤ c.toNat && c.toNat ≤ 90

def isAsciiLower (c : Char) : Bool := 97 ≤ c.toNat && c.toNat ≤ 122

def isAsciiDigit (c : Char) : Bool := 48 ≤ c.toNat && c.toNat ≤ 57

def isAsciiLetter (c : Char) : Bool := isAsciiUpper c || isAsciiLower c

def isAlnumChar (c : Char) : Bool := isAsciiLetter c || isAsciiDigit c

def isAsciiChar (c : Char) : Bool := c.toNat ≤ 127

/-- lodash classifies characters not in its upper/lower/digit/break ranges as
"misc" word characters; every non-ASCII character is treated as misc here
(ASCII-accurate; theorems restrict to ASCII inputs). -/
def isMiscChar (c : Char) : Bool := !isAsciiChar c

/-- JS `String.prototype.toLowerCase` restricted to ASCII. -/
def jsToLowerChar (c : Char) : Char :=
  if 65 ≤ c.toNat ∧ c.toNat ≤ 90 then Char.ofNat (c.toNat + 32) else c

/-- JS `String.prototype.toUpperCase` restricted to ASCII. -/
def jsToUpperChar (c : Char) : Char :=
  if 97 ≤ c.toNat ∧ c.toNat ≤ 122 then Char.ofNat (c.toNat - 32) else c

def jsToUpper (s : String) : String := String.mk (s.toList.map jsToUpperChar)

def jsToLower (s : String) : String := String.mk (s.toList.map jsToLowerChar)

/-! ### JS string helpers used by the source -/

/-- JS `str.split(sep)` for a single-character separator. -/
def splitOnChar (sep : Char) : List Char → List (List Char)
  | [] => [[]]
  | c :: cs =>
    if c = sep then [] :: splitOnChar sep cs
    else
      match splitOnChar sep cs with
      | [] => [[c]]
      | w :: ws => (c :: w) :: ws

def jsSplit (s : String) (sep : Char) : List String :=
  (splitOnChar sep s.toList).map String.mk

/-- `ref.split("/").pop()` — the last `/`-separated segment of a pointer. -/
def lastSeg (r : String) : String := (jsSplit r '/').getLastD ""

/-- JS truthiness of an optional string field (`if (x.f)`). -/
def strTruthy : Option String → Bool
  | none => false
  | some s => s ≠ ""

/-- JS `a || b` where `a` is an optional string (undefined and "" are falsy). -/
def jsOrStr (o : Option String) (dflt : String) : String :=
  match o with
  | none => dflt
  | some s => if s = "" then dflt else s

/-- JS template interpolation of a possibly-undefined string. -/
def jsInterp (o : Option String) : String := o.getD "undefined"

/-- First-match association-list lookup, JS object property access. -/
def jsLookup {α : Type} (l : List (String × α)) (k : String) : Option α :=
  (l.find? (fun p => p.1 = k)).map (·.2)

/-- JS `str.replace(pat, repl)` with a string pattern: first occurrence only. -/
def replaceFirstList (pat repl : List Char) : List Char → List Char
  | [] => []
  | c :: cs =>
    if pat.isPrefixOf (c :: cs) then repl ++ (c :: cs).drop pat.length
    else c :: replaceFirstList pat repl cs

def jsReplaceOnce (s pat repl : String) : String :=
  String.mk (replaceFirstList pat.toList repl.toList s.toList)

/-! ### lodash `words` / `camelCase` / `upperFirst` (ASCII fragment)

`lodash.camelCase` strips apostrophes, deburrs (identity on ASCII), splits
into words, lowercases the first word and capitalizes the rest.  The word
splitter below implements lodash's `unicodeWords` regex restricted to ASCII
plus the misc class: maximal lower/misc runs, upper runs split before a final
upper that is followed by a lower, digit runs, and the `1st/2nd/3rd/nth`
ordinal forms, with break characters (ASCII punctuation and space) skipped. -/

def lowMisc (c : Char) : Bool := isAsciiLower c || isMiscChar c

/-- Expected ordinal suffix for a digit (`1`→ST, `2`→ND, `3`→RD, else TH). -/
def ordSuffix (lastD : Char) (upper : Bool) : List Char :=
  if lastD = '1' then (if upper then ['S', 'T'] else ['s', 't'])
  else if lastD = '2' then (if upper then ['N', 'D'] else ['n', 'd'])
  else if lastD = '3' then (if upper then ['R', 'D'] else ['r', 'd'])
  else (if upper then ['T', 'H'] else ['t', 'h'])

/-- Lookahead of lodash's uppercase-ordinal branch: next char must not be an
uppercase letter or a digit. -/
def ordLookUpper : Option Char → Bool
  | none => true
  | some x => !(isAsciiUpper x || isAsciiDigit x)

/-- Lookahead of lodash's lowercase-ordinal branch: next char must not be a
lowercase letter or a digit. -/
def ordLookLower : Option Char → Bool
  | none => true
  | some x => !(isAsciiLower x || isAsciiDigit x)

/-- The word scanner, fuelled so that it is structurally recursive (and hence
kernel-computable).  Every step consumes at least one input character, so
`fuel = cs.length` always suffices and the `0` branch is unreachable from the
`lodashWords` wrapper below. -/
def lodashWordsFuel : Nat → List Char → List (List Char)
  | 0, _ => []
  | _ + 1, [] => []
  | fuel + 1, c :: rest =>
    if isAsciiUpper c then
      let ups := rest.takeWhile isAsciiUpper
      let after := rest.drop ups.length
      match after with
      | [] => [c :: ups]
      | d :: _ =>
        if lowMisc d then
          if ups.isEmpty then
            let lows := after.takeWhile lowMisc
            (c :: lows) :: lodashWordsFuel fuel (after.drop lows.length)
          else
            (c :: ups.dropLast) :: lodashWordsFuel fuel (rest.drop (ups.length - 1))
        else
          (c :: ups) :: lodashWordsFuel fuel after
    else if lowMisc c then
      let lows := rest.takeWhile lowMisc
      (c :: lows) :: lodashWordsFuel fuel (rest.drop lows.length)
    else if isAsciiDigit c then
      let ds := rest.takeWhile isAsciiDigit
      let after := rest.drop ds.length
      let lastD := ds.getLastD c
      if after.take 2 = ordSuffix lastD true && ordLookUpper (after.drop 2).head? then
        (c :: (ds ++ ordSuffix lastD true)) :: lodashWordsFuel fuel (after.drop 2)
      else if after.take 2 = ordSuffix lastD false && ordLookLower (after.drop 2).head? then
        (c :: (ds ++ ordSuffix lastD false)) :: lodashWordsFuel fuel (after.drop 2)
      else
        (c :: ds) :: lodashWordsFuel fuel after
    else
      lodashWordsFuel fuel rest

def lodashWords (cs : List Char) : List (List Char) := lodashWordsFuel cs.length cs

/-- Concatenation of a list of strings (JS `array.join("")`). -/
def strConcat : List String → String
  | [] => ""
  | s :: rest => s ++ strConcat rest

/-- lodash `capitalize`: lowercase the word, then uppercase its first char. -/
def lodashCapitalize (w : List Char) : String :=
  match w.map jsToLowerChar with
  | [] => ""
  | c :: cs => String.mk (jsToUpperChar c :: cs)

/-- lodash `camelCase` (ASCII fragment; deburr is the identity on ASCII). -/
def lodashCamelCase (s : String) : String :=
  let cleaned := s.toList.filter (fun c => !(c = '\'' || c = '’'))
  match lodashWords cleaned with
  | [] => ""
  | w :: ws => String.mk (w.map jsToLowerChar) ++ strConcat (ws.map lodashCapitalize)

/-- lodash `upperFirst`: uppercase the first char, keep the rest unchanged. -/
def upperFirst (s : String) : String :=
  match s.toList with
  | [] => ""
  | c :: cs => String.mk (jsToUpperChar c :: cs)

/-! ### `src/utils/formatters.ts` -/

/-- `formatTypeName(path, method, prefix)` (formatters.ts:3-18). -/
def formatTypeName (path method pfx : String) : String :=
  let segments := (jsSplit path '/').filter (· ≠ "")
  let pathPart := strConcat (segments.map (fun seg => upperFirst (lodashCamelCase seg)))
  pfx ++ upperFirst method ++ pathPart

/-- `formatModuleName(name)` (formatters.ts:20-38). -/
def formatModuleName (name : String) : String :=
  let camelized := lodashCamelCase name
  let sanitized := String.mk (camelized.toList.dropWhile (fun c => !isAsciiLetter c))
  if sanitized ≠ "" then sanitized
  else if camelized ≠ "" then "module" ++ upperFirst camelized
  else "module"

/-- A valid identifier in the sense of the naming claim: starts with an ASCII
letter and contains only ASCII letters and digits. -/
def isValidIdent (s : String) : Bool :=
  match s.toList with
  | [] => false
  | c :: cs => isAsciiLetter c && cs.all isAlnumChar

/-! ### The schema data model

A JSON-Schema fragment as probed by the source (`generator.ts` and
`serviceGenerator.ts` treat every node as an untyped dictionary and only ever
read the keys below).  `none` models an absent key. -/

inductive Schema where
  | mk (ref type format description : Option String)
      (items : Option Schema)
      (properties : Option (List (String × Schema)))
      (required : Option (List String))
      (allOf oneOf anyOf : Option (List Schema))

def Schema.ref : Schema → Option String
  | .mk r _ _ _ _ _ _ _ _ _ => r

def Schema.type : Schema → Option String
  | .mk _ t _ _ _ _ _ _ _ _ => t

def Schema.format : Schema → Option String
  | .mk _ _ f _ _ _ _ _ _ _ => f

def Schema.description : Schema → Option String
  | .mk _ _ _ d _ _ _ _ _ _ => d

def Schema.items : Schema → Option Schema
  | .mk _ _ _ _ i _ _ _ _ _ => i

def Schema.properties : Schema → Option (List (String × Schema))
  | .mk _ _ _ _ _ p _ _ _ _ => p

def Schema.required : Schema → Option (List String)
  | .mk _ _ _ _ _ _ r _ _ _ => r

def Schema.allOf : Schema → Option (List Schema)
  | .mk _ _ _ _ _ _ _ a _ _ => a

def Schema.oneOf : Schema → Option (List Schema)
  | .mk _ _ _ _ _ _ _ _ o _ => o

def Schema.anyOf : Schema → Option (List Schema)
  | .mk _ _ _ _ _ _ _ _ _ a => a

/-- A schema node with every key absent. -/
def emptySchema : Schema := .mk none none none none none none none none none none

/-- A node carrying only `$ref` (a pure pointer). -/
def refOnlySchema (r : String) : Schema :=
  .mk (some r) none none none none none none none none none

/-- A node carrying only `type`. -/
def typeOnlySchema (t : String) : Schema :=
  .mk none (some t) none none none none none none none none

/-! ### `generateTypeProps` (generator.ts:109-320)

The source threads a mutable `processedRefs : Set<string>` and reads the
registry `schemas`; both are modelled as explicit state (`GenState`) so that
the frame property "the registry is never mutated" is a theorem about the
state, not an artifact of the embedding.  Recursion depth: the source guards
`depth > MAX_DEPTH (= 10)` and every recursive call passes `depth + 1`, so
depth `d` corresponds to the structural budget `MAX_DEPTH + 1 - d` below and
the `0` budget returns the depth fallback exactly like `depth = 11` does.

The source's dead `typeDefinitions` side channel (generator.ts:115, 171-179):
nested interface text built there is written into a `{value}` ref that no
caller of `generateTypeProps` ever reads, and it is computed on a copy of the
set (`new Set([...processedRefs])`); the only observable effect of that block
is the `interface:<Name>` marker added to the shared set, which is modelled.
The `try/catch` around object properties (generator.ts:208-304) catches the
`TypeError` thrown by `prop.items.$ref` when an array property has no
`items`; `renderProp` returns `none` for that throw and the catch branch of
`genStep` maps it to the source's `any // Error processing properties`. -/

structure GenState where
  schemas : Option (List (String × Schema))
  refs : List String

def lookupSchema (st : GenState) (name : String) : Option Schema :=
  match st.schemas with
  | none => none
  | some reg => jsLookup reg name

/-- `processedRefs.add(name)` (adding an element already present is a no-op). -/
def addRef (st : GenState) (name : String) : GenState :=
  if st.refs.contains name then st else { st with refs := st.refs ++ [name] }

/-- The JSDoc description block prefix shared by all property renderings
(generator.ts:212-215). -/
def descriptionDoc (indent : String) (prop : Schema) : String :=
  match prop.description with
  | none => ""
  | some d =>
    if d = "" then ""
    else
      "\n" ++ indent ++ " * " ++ d ++
        (match prop.type with
         | none => ""
         | some t => if t = "" then "" else "\n" ++ indent ++ " * 类型: " ++ t)

/-- `${indent}/**${description}\n${indent} */\n${indent}${name}${required}: ` -/
def propHead (indent description name required : String) : String :=
  indent ++ "/**" ++ description ++ "\n" ++ indent ++ " */\n" ++ indent ++
    name ++ required ++ ": "

/-- One property of an object schema (the arrow function body of
generator.ts:210-296), parametric in the recursive renderer `rec` (which the
caller instantiates with the next-depth `generateTypeProps`).  Returns `none`
where the source throws (array property without `items`). -/
def renderProp (rec : Schema → String → GenState → String × GenState)
    (indent : String) (reqNames : List String) (name : String) (prop : Schema)
    (st : GenState) : Option String × GenState :=
  let required := if reqNames.contains name then "" else "?"
  let description := descriptionDoc indent prop
  let head := propHead indent description name required
  if strTruthy prop.ref then
    let refType := lastSeg (prop.ref.getD "")
    match lookupSchema st refType with
    | some target =>
      if st.refs.contains refType then
        (some (head ++ refType ++ ";"), st)
      else
        let st1 := addRef st refType
        let r := rec target (indent ++ "  ") st1
        (some (head ++ "\x7b\n" ++ r.1 ++ "\n" ++ indent ++ "\x7d;"), r.2)
    | none => (some (head ++ refType ++ ";"), st)
  else if prop.type = some "array" then
    match prop.items with
    | none => (none, st)
    | some items =>
      if strTruthy items.ref then
        let itemType := lastSeg (items.ref.getD "")
        match lookupSchema st itemType with
        | some target =>
          if st.refs.contains itemType then (some (head ++ itemType ++ "[];"), st)
          else
            let st1 := addRef st itemType
            let r := rec target (indent ++ "  ") st1
            (some (head ++ "\x7b\n" ++ r.1 ++ "\n" ++ indent ++ "\x7d[];"), r.2)
        | none => (some (head ++ itemType ++ "[];"), st)
      else if items.type = some "object" then
        if st.refs.contains "object" then (some (head ++ "object[];"), st)
        else
          let st1 := addRef st "object"
          let r := rec items (indent ++ "  ") st1
          (some (head ++ "\x7b\n" ++ r.1 ++ "\n" ++ indent ++ "\x7d[];"), r.2)
      else
        match (if items.type = some "integer" then some "number" else items.type) with
        | some itemType => (some (head ++ itemType ++ "[];"), addRef st itemType)
        | none =>
          -- the source renders `${undefined}[]` and adds the JS value
          -- `undefined` to the set, which no string-keyed lookup observes
          (some (head ++ "undefined[];"), st)
  else if prop.type = some "object" then
    match prop.properties with
    | none => (some (head ++ "Record<string, any>;"), st)
    | some _ =>
      let r := rec prop (indent ++ "  ") st
      (some (head ++ "\x7b\n" ++ r.1 ++ "\n" ++ indent ++ "\x7d;"), r.2)
  else
    let t := if prop.type = some "integer" then "number" else jsOrStr prop.type "any"
    (some (head ++ t ++ ";"), addRef st t)

/-- The `.map(...)` over `Object.entries(schema.properties)` with the thread
of the shared mutable set; `none` aborts at the first thrown property, keeping
the mutations made so far, exactly like the JS exception. -/
def goProps (rec : Schema → String → GenState → String × GenState)
    (indent : String) (reqNames : List String) :
    List (String × Schema) → GenState → Option (List String) × GenState
  | [], st => (some [], st)
  | q :: rest, st =>
    match renderProp rec indent reqNames q.1 q.2 st with
    | (none, st1) => (none, st1)
    | (some line, st1) =>
      match goProps rec indent reqNames rest st1 with
      | (none, st2) => (none, st2)
      | (some lines, st2) => (some (line :: lines), st2)

/-- One depth level of `generateTypeProps` (generator.ts:109-320), parametric
in the next-depth renderer `rec`. -/
def genStep (rec : Schema → String → GenState → String × GenState)
    (schema : Option Schema) (indent : String) (st : GenState) : String × GenState :=
  match schema with
  | none => ("", st)
  | some s =>
    if strTruthy s.ref then
      let refType := lastSeg (s.ref.getD "")
      if st.refs.contains refType then
        (indent ++ "any // Circular reference to " ++ refType, st)
      else
        match lookupSchema st refType with
        | some target => rec target indent (addRef st refType)
        | none => (indent ++ refType, st)
    else if s.type = some "array" then
      match s.items with
      | none => (indent ++ "any[]", st)
      | some items =>
        if strTruthy items.ref then
          let itemType := lastSeg (items.ref.getD "")
          match lookupSchema st itemType with
          | some _ =>
            if st.refs.contains itemType then (indent ++ itemType ++ "[]", st)
            else (indent ++ itemType ++ "[]", addRef st ("interface:" ++ itemType))
          | none => (indent ++ "\x7b\x7d[]", st)
        else if items.type = some "object" then
          let r := rec items (indent ++ "  ") st
          (indent ++ "\x7b\n" ++ r.1 ++ "\n" ++ indent ++ "\x7d[]", r.2)
        else
          let itemType := if items.type = some "integer" then "number"
            else jsOrStr items.type "any"
          (indent ++ itemType ++ "[]", st)
    else if s.type = some "object" && s.properties.isSome then
      match goProps rec indent (s.required.getD []) (s.properties.getD []) st with
      | (some lines, st1) => (String.intercalate "\n" (lines.filter (· ≠ "")), st1)
      | (none, st1) => (indent ++ "any // Error processing properties", st1)
    else if s.type = some "string" || s.type = some "boolean" ||
        s.type = some "number" || s.type = some "integer" then
      (indent ++ (if s.type = some "integer" then "number" else s.type.getD ""), st)
    else
      (indent ++ "any", st)

/-- Budgeted `generateTypeProps`: budget `b` corresponds to source depth
`MAX_DEPTH + 1 - b`; budget `0` is the `depth > MAX_DEPTH` fallback. -/
def goGen : Nat → Option Schema → String → GenState → String × GenState
  | 0, _, indent, st => (indent ++ "any // Max depth reached", st)
  | b + 1, schema, indent, st => genStep (fun s i st' => goGen b (some s) i st') schema indent st

def MAX_DEPTH : Nat := 10

/-- `generateTypeProps(schema, indent, schemas, processedRefs)` at depth 0. -/
def generateTypeProps (schema : Schema) (indent : String) (st : GenState) :
    String × GenState :=
  goGen (MAX_DEPTH + 1) (some schema) indent st

/-- `handleRecursiveType` (generator.ts:85-107). -/
def handleRecursiveType (typName : String) (schema : Schema) (indent : String)
    (st : GenState) : String × GenState :=
  if st.refs.contains typName then (typName, st)
  else
    let st1 := addRef st typName
    let r := generateTypeProps schema (indent ++ "  ") st1
    ("\x7b\n" ++ r.1 ++ "\n" ++ indent ++ "\x7d", r.2)

/-! ### OpenAPI document model (src/types/openapi.ts, as probed by the source) -/

structure Parameter where
  name : String
  /-- the `in` field of the source (`"path"` / `"query"`); `in` is a Lean keyword. -/
  loc : Option String
  required : Option Bool
  description : Option String
  schema : Option Schema

structure MediaTypeObject where
  schema : Option Schema

structure RequestBodyObject where
  content : Option (List (String × MediaTypeObject))

structure ResponseObject where
  content : Option (List (String × MediaTypeObject))

structure OperationObject where
  tags : Option (List String)
  summary : Option String
  parameters : Option (List Parameter)
  requestBody : Option RequestBodyObject
  responses : Option (List (String × ResponseObject))

structure ComponentsObject where
  schemas : Option (List (String × Schema))

structure OpenAPISpec where
  paths : Option (List (String × List (String × OperationObject)))
  components : Option ComponentsObject

/-- JS truthiness of an optional boolean field. -/
def boolTruthy (o : Option Bool) : Bool := o.getD false

/-! ### Response selection (generator.ts:612-655)

`Object.entries(responses)` puts integer-like status keys first in ascending
order and keeps the other keys in insertion order; since the selection sorts
the candidates by the very rank the source computes (where the ranks of
distinct numeric statuses are distinct and below the wildcard/default ranks),
modelling the entries as the document-order association list does not change
the selected response. -/

def MAX_SAFE_INTEGER : Nat := 2 ^ 53 - 1

/-- The `/^2\d{2}$/` test. -/
def is2xxNumeric (s : String) : Bool :=
  match s.toList with
  | [a, b, c] => a = '2' && isAsciiDigit b && isAsciiDigit c
  | _ => false

def isResponseCandidate (status : String) : Bool :=
  is2xxNumeric status || jsToUpper status = "DEFAULT" || jsToUpper status = "2XX"

def natOfDigits (ds : List Char) : Nat := ds.foldl (fun n c => n * 10 + (c.toNat - 48)) 0

/-- `parseInt(status, 10)` restricted to a leading run of digits, which is the
only shape that reaches it (candidates either match `/^2\d{2}$/` or are
handled by the DEFAULT/2XX branches first); no digits means `NaN`. -/
def jsParseIntNat (s : String) : Option Nat :=
  match s.toList.takeWhile isAsciiDigit with
  | [] => none
  | ds => some (natOfDigits ds)

/-- `sortByStatus` (generator.ts:628-633). -/
def sortByStatus (status : String) : Nat :=
  if jsToUpper status = "DEFAULT" then MAX_SAFE_INTEGER - 1
  else if jsToUpper status = "2XX" then MAX_SAFE_INTEGER - 2
  else
    match jsParseIntNat status with
    | some n => n
    | none => MAX_SAFE_INTEGER

/-- Stable insertion into a rank-sorted list: an element goes before the
first strictly larger rank, preserving the original order of equal ranks —
the behaviour of the (stable) `Array.prototype.sort` of the source. -/
def insertByRank (x : String × ResponseObject) :
    List (String × ResponseObject) → List (String × ResponseObject)
  | [] => [x]
  | y :: ys =>
    if sortByStatus x.1 ≤ sortByStatus y.1 then x :: y :: ys else y :: insertByRank x ys

def sortCandidates : List (String × ResponseObject) → List (String × ResponseObject)
  | [] => []
  | c :: cs => insertByRank c (sortCandidates cs)

def preferredContentTypes : List String :=
  ["application/json", "application/*+json", "text/json", "*/*"]

/-- The first preferred content type whose media object carries a schema. -/
def findPreferred (content : List (String × MediaTypeObject)) : Option (Schema × String) :=
  preferredContentTypes.findSome?
    (fun ct => ((jsLookup content ct).bind MediaTypeObject.schema).map (fun sc => (sc, ct)))

/-- The first declared entry carrying a schema. -/
def findAnyMedia (content : List (String × MediaTypeObject)) : Option (Schema × String) :=
  content.findSome? (fun q => q.2.schema.map (fun sc => (sc, q.1)))

/-- The `for (const [status, response] of candidates)` loop of
generator.ts:637-652: skip responses without content, try preferred content
types, then any declared content type. -/
def firstPick : List (String × ResponseObject) → Option (Schema × String × String)
  | [] => none
  | q :: rest =>
    match q.2.content with
    | none => firstPick rest
    | some content =>
      match findPreferred content with
      | some (sc, ct) => some (sc, q.1, ct)
      | none =>
        match findAnyMedia content with
        | some (sc, ct) => some (sc, q.1, ct)
        | none => firstPick rest

/-- `getSuccessfulResponseSchema` (generator.ts:619-655); the result carries
(schema, status, contentType). -/
def getSuccessfulResponseSchema (op : OperationObject) : Option (Schema × String × String) :=
  match op.responses with
  | none => none
  | some rs => firstPick (sortCandidates (rs.filter (fun q => isResponseCandidate q.1)))

/-! ### `generateRequestBodyType` (generator.ts:350-534) -/

/-- `shouldUseTypeInsteadOfInterface` (generator.ts:322-348).  The leading
`typeof schema` primitive checks of the source cannot fire for the
object-shaped nodes `Schema` models. -/
def shouldUseTypeInsteadOfInterface (s : Schema) : Bool :=
  if s.type = some "array" then true
  else if s.type = some "string" || s.type = some "number" ||
      s.type = some "integer" || s.type = some "boolean" then true
  else if s.type = some "object" && s.properties.isNone then true
  else false

/-- One property line of the url-encoded request-body section
(generator.ts:366-379). -/
def urlencodedPropLine (reqNames : List String) (q : String × Schema) : String :=
  let required := if reqNames.contains q.1 then "" else "?"
  let description := descriptionDoc "  " q.2
  let t := if q.2.type = some "integer" then "number" else jsOrStr q.2.type "string"
  "  /**" ++ description ++ "\n   */\n  " ++ q.1 ++ required ++ ": " ++ t ++ ";"

/-- One property line of the form-data request-body section
(generator.ts:386-404), with the `File` special case for binary strings. -/
def formDataPropLine (reqNames : List String) (q : String × Schema) : String :=
  let required := if reqNames.contains q.1 then "" else "?"
  let description := descriptionDoc "  " q.2
  if q.2.type = some "string" && q.2.format = some "binary" then
    "  /**" ++ description ++ "\n   */\n  " ++ q.1 ++ required ++ ": File;"
  else
    let t := if q.2.type = some "integer" then "number" else jsOrStr q.2.type "string"
    "  /**" ++ description ++ "\n   */\n  " ++ q.1 ++ required ++ ": " ++ t ++ ";"

/-- `processObjectProperties` (generator.ts:511-520), parametric in the
property renderer. -/
def processObjectPropertiesWith (pp : Schema → String → Bool → String → String)
    (s : Schema) (indent : String) : String :=
  match s.properties with
  | none => ""
  | some props =>
    String.intercalate "\n"
      (props.map (fun q => pp q.2 q.1 ((s.required.getD []).contains q.1) indent))

/-- `processProperty` (generator.ts:470-509), fuelled: every nested call
descends into a structurally smaller schema, so `sizeOf prop` bounds the
nesting depth and the `0` branch is unreachable from the wrappers below. -/
def processPropertyFuel : Nat → Schema → String → Bool → String → String
  | 0, _, _, _, _ => ""
  | fuel + 1, prop, name, required, indent =>
    let description := descriptionDoc indent prop
    let requiredMark := if required then "" else "?"
    let head := propHead indent description name requiredMark
    if prop.type = some "array" then
      match prop.items with
      | none => head ++ "any[];"
      | some items =>
        if items.type = some "object" then
          let itemProps :=
            processObjectPropertiesWith (fun p n r i => processPropertyFuel fuel p n r i)
              items (indent ++ "  ")
          head ++ "Array<\x7b\n" ++ itemProps ++ "\n" ++ indent ++ "\x7d>;"
        else
          let itemType := if items.type = some "integer" then "number"
            else jsOrStr items.type "any"
          head ++ itemType ++ "[];"
    else if prop.type = some "object" then
      let nested :=
        processObjectPropertiesWith (fun p n r i => processPropertyFuel fuel p n r i)
          prop (indent ++ "  ")
      head ++ "\x7b\n" ++ nested ++ "\n" ++ indent ++ "\x7d;"
    else
      let t := if prop.type = some "integer" then "number" else jsOrStr prop.type "any"
      head ++ t ++ ";"


/-! A structural size for schema nodes, used only to compute sufficient fuel
for the fuelled recursions below (any chain of structurally descending
recursive calls is shorter than the size). -/
mutual

def schemaSize : Schema → Nat
  | .mk _ _ _ _ items props _ allOf oneOf anyOf =>
    1 + (match items with | none => 0 | some s => schemaSize s) +
      propsOptSize props + schemaListOptSize allOf + schemaListOptSize oneOf +
      schemaListOptSize anyOf

def propsOptSize : Option (List (String × Schema)) → Nat
  | none => 0
  | some l => propsSize l

def propsSize : List (String × Schema) → Nat
  | [] => 0
  | q :: rest => 1 + schemaSize q.2 + propsSize rest

def schemaListOptSize : Option (List Schema) → Nat
  | none => 0
  | some l => schemaListSize l

def schemaListSize : List Schema → Nat
  | [] => 0
  | s :: rest => 1 + schemaSize s + schemaListSize rest

end

/-- `processObjectProperties` with the property renderer instantiated at a
sufficient fuel. -/
def processObjectProperties (s : Schema) (indent : String) : String :=
  processObjectPropertiesWith (fun p n r i => processPropertyFuel (schemaSize p) p n r i) s indent

/-- `generateRequestBodyType` (generator.ts:350-534).  The result pairs the
`"type" | "interface"` discriminator with the emitted content; `none` models
the uncaught `TypeError` of `schema.items.<key>` when an array-typed JSON
body has no `items` (generator.ts:435), which aborts the whole generation. -/
def generateRequestBodyType (op : OperationObject)
    (schemas : Option (List (String × Schema))) : Option (String × String) :=
  match op.requestBody with
  | none => some ("interface", "")
  | some rb =>
    match rb.content with
    | none => some ("interface", "")
    | some content =>
      let formDataContent := jsLookup content "multipart/form-data"
      let jsonContent := jsLookup content "application/json"
      let urlencodedContent := jsLookup content "application/x-www-form-urlencoded"
      let urlencProps :=
        match urlencodedContent.bind MediaTypeObject.schema with
        | some sc =>
          match sc.properties with
          | some props =>
            String.intercalate "\n" (props.map (urlencodedPropLine (sc.required.getD [])))
          | none => ""
        | none => ""
      let formProps :=
        match formDataContent.bind MediaTypeObject.schema with
        | some sc =>
          match sc.properties with
          | some props =>
            String.intercalate "\n" (props.map (formDataPropLine (sc.required.getD [])))
          | none => ""
        | none => ""
      let properties2 := urlencProps ++
        (if urlencProps ≠ "" ∧ formProps ≠ "" then "\n\n" else "") ++ formProps
      match jsonContent.bind MediaTypeObject.schema with
      | none => some ("interface", properties2)
      | some schema =>
        let refCase : Option (String × String) :=
          if strTruthy schema.ref then
            let refType := lastSeg (schema.ref.getD "")
            if refType ≠ "" then some ("type", refType) else none
          else none
        match refCase with
        | some r => some r
        | none =>
          if formDataContent.isNone && urlencodedContent.isNone &&
              shouldUseTypeInsteadOfInterface schema then
            if schema.type = some "array" then
              match schema.items with
              | none => none
              | some items =>
                if items.type = some "string" then some ("type", "string[]")
                else if items.type = some "number" || items.type = some "integer" then
                  some ("type", "number[]")
                else if items.type = some "boolean" then some ("type", "boolean[]")
                else if items.type = some "object" then
                  some ("type", "Array<\x7b\n" ++
                    (generateTypeProps items "  " ⟨schemas, []⟩).1 ++ "\n\x7d>")
                else if strTruthy items.ref then
                  some ("type", lastSeg (items.ref.getD "") ++ "[]")
                else some ("type", "any[]")
            else if schema.type = some "string" || schema.type = some "number" ||
                schema.type = some "integer" || schema.type = some "boolean" then
              some ("type",
                if schema.type = some "integer" then "number" else schema.type.getD "")
            else
              some ("type", (generateTypeProps schema "" ⟨schemas, []⟩).1)
          else
            let jsonProps := processObjectProperties schema "  "
            some ("interface", properties2 ++
              (if properties2 ≠ "" ∧ jsonProps ≠ "" then "\n\n" else "") ++ jsonProps)

/-! ### Request/response block assembly (generator.ts:600-943)

The file-system writes and the network fetch around this logic are I/O
periphery and are not modelled; `generateTypesText` returns the exact text
the source writes to the module's `.d.ts` file, or `none` where the source
throws.  The source reads the clock (`new Date().toISOString()`) once per
operation; the model threads a single ISO timestamp for the run. -/

/-- `new Date().toISOString().split("T").join(" ").split(".")[0]`
(generator.ts:733-737). -/
def fmtUpdateTime (iso : String) : String :=
  (jsSplit (String.intercalate " " (jsSplit iso 'T')) '.').headD ""

/-- The `/^(.+?)\[(\d+)\]$/` match of generator.ts:759: a parameter name of
shape `pre[digits]` with non-empty `pre`; returns the real name `pre`. -/
def arrayParamMatch (name : String) : Option String :=
  match name.toList.reverse with
  | ']' :: rest =>
    let ds := rest.takeWhile isAsciiDigit
    if ds = [] then none
    else
      match rest.drop ds.length with
      | '[' :: pre => if pre = [] then none else some (String.mk pre.reverse)
      | _ => none
  | _ => none

/-- One parameter line of the Request interface (generator.ts:747-800). -/
def paramLine (param : Parameter) : String :=
  let required := if boolTruthy param.required then "" else "?"
  let description :=
    match param.description with
    | none => ""
    | some d =>
      if d = "" then ""
      else
        "\n   * " ++ d ++
          (match param.schema.bind Schema.type with
           | none => ""
           | some t => if t = "" then "" else "\n   * 类型: " ++ t)
  match arrayParamMatch param.name with
  | some realName =>
    "  /**" ++ description ++ "\n   */\n  " ++ realName ++ required ++ ": string[];"
  | none =>
    if param.schema.bind Schema.type = some "array" then
      match param.schema.bind Schema.items with
      | none =>
        "  /**" ++ description ++ "\n   */\n  " ++ param.name ++ required ++ ": any[];"
      | some items =>
        let itemType :=
          if strTruthy items.ref then lastSeg (items.ref.getD "")
          else if items.type = some "integer" then "number"
          else jsOrStr items.type "any"
        "  /**" ++ description ++ "\n   */\n  " ++ param.name ++ required ++ ": " ++
          itemType ++ "[];"
    else
      let t := if param.schema.bind Schema.type = some "integer" then "number"
        else jsOrStr (param.schema.bind Schema.type) "string"
      "  /**" ++ description ++ "\n   */\n  " ++ param.name ++ required ++ ": " ++ t ++ ";"

/-- `parameterProps` (generator.ts:745-801). -/
def parameterPropsOf (op : OperationObject) : String :=
  match op.parameters with
  | none => ""
  | some ps => if ps.length ≠ 0 then String.intercalate "\n" (ps.map paramLine) else ""

/-- The doc-comment header shared by the Request/Response blocks
(generator.ts:806-812 and 897-903). -/
def opDocHeader (kind path tag method updateTime : String) (summary : Option String) :
    String :=
  "\n/**\n * 接口 [" ++ jsInterp summary ++ "↗](" ++ path ++ ") 的 **" ++ kind ++
    "**\n *\n * @分类 [" ++ tag ++ "↗](" ++ path ++ ")\n * @请求头 `" ++
    jsToUpper method ++ " " ++ path ++ "`\n * @更新时间 `" ++ updateTime ++ "`\n */\n"

/-- The Request-type block for one operation (generator.ts:740-882); `none`
propagates the uncaught exception of `generateRequestBodyType`. -/
def requestBlockOf (path method : String) (op : OperationObject)
    (schemas : Option (List (String × Schema))) (typePfx updateTime : String) :
    Option String :=
  let requestInterfaceName := formatTypeName path method typePfx ++ "Request"
  let tag := jsOrStr (op.tags.bind (fun l => l.head?)) "Uncategorized"
  let header := opDocHeader "请求类型" path tag method updateTime op.summary
  if (op.parameters.getD []).length ≠ 0 || op.requestBody.isSome then
    match generateRequestBodyType op schemas with
    | none => none
    | some (rbType, rbProps) =>
      let parameterProps := parameterPropsOf op
      if rbType = "type" ∧ parameterProps = "" then
        some (header ++ "export type " ++ requestInterfaceName ++ " = " ++ rbProps ++
          ";\n\n")
      else if rbType = "type" then
        some (header ++ "export interface " ++ requestInterfaceName ++ " \x7b\n" ++
          parameterProps ++
          "\n\n  /**\n   * 请求体数据\n   */\n  requestBody: " ++ rbProps ++
          ";\n\x7d\n\n")
      else
        let allProps := parameterProps ++
          (if rbProps ≠ "" ∧ rbType = "interface" then
            (if parameterProps ≠ "" then "\n\n" else "") ++ rbProps
          else "")
        some (header ++ "export interface " ++ requestInterfaceName ++ " \x7b\n" ++
          allProps ++ "\n\x7d\n\n")
  else
    some (header ++ "export interface " ++ requestInterfaceName ++
      " \x7b\n  // This API doesn't require any parameters\n\x7d\n\n")

/-- The Response-type block for one operation (generator.ts:884-924). -/
def responseBlockOf (path method : String) (op : OperationObject)
    (schemas : Option (List (String × Schema))) (typePfx updateTime : String) : String :=
  let responseInterfaceName := formatTypeName path method typePfx ++ "Response"
  let tag := jsOrStr (op.tags.bind (fun l => l.head?)) "Uncategorized"
  let header := opDocHeader "返回类型" path tag method updateTime op.summary
  match getSuccessfulResponseSchema op with
  | some (schema, _, _) =>
    let responseProps := (generateTypeProps schema "  " ⟨schemas, []⟩).1
    header ++ "export interface " ++ responseInterfaceName ++ " \x7b\n" ++
      responseProps ++ "\n\x7d\n\n"
  | none =>
    header ++ "export interface " ++ responseInterfaceName ++
      " \x7b\n  // This API doesn't have a defined response type\n\x7d\n\n"

/-- Both blocks of one operation, in emission order. -/
def opBlocksOf (path method : String) (op : OperationObject)
    (schemas : Option (List (String × Schema))) (typePfx updateTime : String) :
    Option String :=
  match requestBlockOf path method op schemas typePfx updateTime with
  | none => none
  | some rb => some (rb ++ responseBlockOf path method op schemas typePfx updateTime)

/-! ### `collectReferencedTypes` (generator.ts:658-718) -/

structure CollectState where
  processed : List String
  typeDefs : String

/-- The shared-registry interface collection, fuelled (one unit per recursive
call; between registry jumps the recursion descends structurally and each
registry name is entered at most once thanks to the `processedTypes` guard,
so the bound `collectFuelBound` below always suffices and the `0` branch is
unreachable from `collectReferencedTypes`).  New interfaces are prepended to
the accumulated `typeDefs` exactly as the source prepends to its
`typeDefinitions` string. -/
def collectPropsWith (cw : Schema → CollectState → CollectState) :
    List (String × Schema) → CollectState → CollectState
  | [], st => st
  | q :: rest, st => collectPropsWith cw rest (cw q.2 st)

def collectFuel (reg : Option (List (String × Schema))) :
    Nat → Schema → Bool → CollectState → CollectState
  | 0, _, _, st => st
  | fuel + 1, s, fromTagged, st =>
    let st1 :=
      if strTruthy s.ref then
        let refType := lastSeg (s.ref.getD "")
        if fromTagged && refType ≠ "" && !st.processed.contains refType then
          match (match reg with | none => none | some r => jsLookup r refType) with
          | some target =>
            let interfaceText := "interface " ++ refType ++ " " ++
              (handleRecursiveType refType target "" ⟨reg, []⟩).1 ++ "\n\n"
            let st' : CollectState :=
              { processed := st.processed ++ [refType],
                typeDefs := interfaceText ++ st.typeDefs }
            collectFuel reg fuel target true st'
          | none => st
        else st
      else st
    let st2 :=
      if s.type = some "array" && s.items.isSome then
        collectFuel reg fuel (s.items.getD emptySchema) fromTagged st1
      else st1
    if s.type = some "object" && s.properties.isSome then
      collectPropsWith (fun sc st' => collectFuel reg fuel sc fromTagged st')
        (s.properties.getD []) st2
    else st2

def collectFuelBound (reg : Option (List (String × Schema))) (s : Schema) : Nat :=
  schemaSize s +
    (match reg with
     | none => 0
     | some r => propsSize r + r.length) + 1

def collectReferencedTypes (reg : Option (List (String × Schema))) (s : Schema)
    (fromTagged : Bool) (st : CollectState) : CollectState :=
  collectFuel reg (collectFuelBound reg s) s fromTagged st

/-! ### `generateTypes` text pipeline (generator.ts:600-943) -/

/-- The tag-filtered operations in document order
(`for (path, pathItem) ... for (method, operation) ...` with the
`operation.tags?.some(tag => tags.includes(tag))` filter). -/
def matchedOps (spec : OpenAPISpec) (tags : List String) :
    List (String × String × OperationObject) :=
  (spec.paths.getD []).flatMap (fun q =>
    q.2.filterMap (fun r =>
      if (r.2.tags.getD []).any (fun t => tags.contains t) then some (q.1, r.1, r.2)
      else none))

/-- The first pass of `generateTypes` (generator.ts:696-718): collect every
schema referenced from a tag-matched operation's selected response or any of
its declared request-body contents. -/
def collectPass (spec : OpenAPISpec) (tags : List String) : CollectState :=
  let schemas := spec.components.bind ComponentsObject.schemas
  (matchedOps spec tags).foldl
    (fun st q =>
      let op := q.2.2
      let st1 :=
        match getSuccessfulResponseSchema op with
        | some (sc, _, _) => collectReferencedTypes schemas sc true st
        | none => st
      match op.requestBody.bind RequestBodyObject.content with
      | some content =>
        (content.filterMap (fun m => m.2.schema)).foldl
          (fun st2 sc => collectReferencedTypes schemas sc true st2) st1
      | none => st1)
    ⟨[], ""⟩

/-- The second pass of `generateTypes` (generator.ts:720-926): append the
Request/Response blocks per operation; `none` propagates the first thrown
exception (thereafter the source's loop does not continue either, and the
run produces no file). -/
def blocksPass (spec : OpenAPISpec) (tags : List String) (typePfx updateTime : String) :
    Option String :=
  let schemas := spec.components.bind ComponentsObject.schemas
  (matchedOps spec tags).foldl
    (fun acc q =>
      match acc with
      | none => none
      | some a =>
        match opBlocksOf q.1 q.2.1 q.2.2 schemas typePfx updateTime with
        | none => none
        | some b => some (a ++ b))
    (some "")

/-- The full module text written by `generateTypes` (generator.ts:928-936),
as a function of the formatted update time.  The source re-reads the clock
once per operation (generator.ts:733-737) and formats it to second
granularity; the single `updateTime` argument models a run whose per-operation
clock reads all format to the same string. -/
def generateTypesTextAt (spec : OpenAPISpec) (tags : List String)
    (typePfx moduleName updateTime : String) : Option String :=
  let collectSt := collectPass spec tags
  match blocksPass spec tags typePfx updateTime with
  | none => none
  | some bs =>
    some ("/* eslint-disable */\n// Generated Types for " ++ moduleName ++
      "\n// DO NOT EDIT - This file is automatically generated\n\n" ++
      collectSt.typeDefs ++ bs ++ "\n")

/-- The full module text as a function of the raw ISO clock reading. -/
def generateTypesText (spec : OpenAPISpec) (tags : List String)
    (typePfx moduleName isoNow : String) : Option String :=
  generateTypesTextAt spec tags typePfx moduleName (fmtUpdateTime isoNow)

/-! ### The client generator (serviceGenerator.ts) -/

/-- `getContentType` (serviceGenerator.ts:121-131). -/
def getContentType (op : OperationObject) : String :=
  match op.requestBody.bind RequestBodyObject.content with
  | some content =>
    if (jsLookup content "multipart/form-data").isSome then "multipart/form-data"
    else if (jsLookup content "application/x-www-form-urlencoded").isSome then
      "application/x-www-form-urlencoded"
    else "application/json"
  | none => "application/json"

def pathParamsOf (op : OperationObject) : List Parameter :=
  (op.parameters.getD []).filter (fun p => p.loc = some "path")

def queryParamsOf (op : OperationObject) : List Parameter :=
  (op.parameters.getD []).filter (fun p => p.loc = some "query")

/-- The effective content type used for body shaping: `getContentType`, then
the query-parameter override of serviceGenerator.ts:259-263 (POST/PUT/PATCH
with any query parameter is forced to url-encoded). -/
def serviceContentType (method : String) (op : OperationObject) : String :=
  let methodUpper := jsToUpper method
  if ["POST", "PUT", "PATCH"].contains methodUpper ∧ (queryParamsOf op).length ≠ 0 then
    "application/x-www-form-urlencoded"
  else getContentType op

/-- `isObjectLikeSchema` (serviceGenerator.ts:198-219). -/
def isObjectLikeSchema : Option Schema → Bool
  | none => false
  | some s =>
    if s.type = some "object" then true
    else if s.properties.isSome || s.allOf.isSome || s.oneOf.isSome || s.anyOf.isSome then
      true
    else false

/-- The number of distinct registry names not yet in the seen set — the bound
the claim about `resolveSchema` asserts on its recursion depth. -/
def distinctRemaining (schemas : Option (List (String × Schema))) (seen : List String) :
    Nat :=
  match schemas with
  | none => 0
  | some reg => (((reg.map Prod.fst).dedup).filter (fun n => !seen.contains n)).length

/-- `resolveSchema` (serviceGenerator.ts:169-196), fuelled: each recursive
call adds a registry name that was not in the seen set, so any fuel beyond
`distinctRemaining` suffices (proved below) and the `0` branch is unreachable
from the `resolveSchema` wrapper.  A `$ref` of non-string type is outside the
model (`Schema.ref` is the string-or-absent field). -/
def resolveSchemaFuel :
    Nat → Option Schema → Option (List (String × Schema)) → List String → Option Schema
  | 0, schema, _, _ => schema
  | fuel + 1, schema, schemas, seen =>
    match schema with
    | none => none
    | some s =>
      match s.ref, schemas with
      | some r, some reg =>
        let refName := lastSeg r
        if refName = "" || seen.contains refName then some s
        else
          match jsLookup reg refName with
          | none => some s
          | some refSchema =>
            match resolveSchemaFuel fuel (some refSchema) schemas (seen ++ [refName]) with
            | none => some refSchema
            | some out => some out
      | _, _ => some s

def resolveSchema (schema : Option Schema) (schemas : Option (List (String × Schema)))
    (seen : List String) : Option Schema :=
  resolveSchemaFuel (distinctRemaining schemas seen + 1) schema schemas seen

/-- `word.charAt(0).toUpperCase() + word.slice(1).toLowerCase()`. -/
def capWordJs (w : List Char) : String :=
  match w with
  | [] => ""
  | c :: cs => String.mk (jsToUpperChar c :: cs.map jsToLowerChar)

/-- `str.charAt(0).toLowerCase() + str.slice(1)`. -/
def lowerFirst (s : String) : String :=
  match s.toList with
  | [] => ""
  | c :: cs => String.mk (jsToLowerChar c :: cs)

/-- JS `split(/[-_]/)`-style splitting on a character predicate. -/
def splitOnPred (p : Char → Bool) : List Char → List (List Char)
  | [] => [[]]
  | c :: cs =>
    if p c then [] :: splitOnPred p cs
    else
      match splitOnPred p cs with
      | [] => [[c]]
      | w :: ws => (c :: w) :: ws

def isDashUnderscore (c : Char) : Bool := c = '-' || c = '_'

/-- The `path.replace(/\{([^}]+)\}/g, cb)` of serviceGenerator.ts:134-139:
each `{param}` group is replaced by the `-`/`_`-split, per-word capitalized
form of `param`; fuelled on the input length (each step consumes at least one
character). -/
def replaceBraceGroupsFuel : Nat → List Char → List Char
  | 0, cs => cs
  | _ + 1, [] => []
  | fuel + 1, c :: rest =>
    if c = '\x7b' then
      let inner := rest.takeWhile (fun x => x ≠ '\x7d')
      match rest.drop inner.length with
      | _ :: rest2 =>
        if inner ≠ [] then
          (strConcat ((splitOnPred isDashUnderscore inner).map capWordJs)).toList ++
            replaceBraceGroupsFuel fuel rest2
        else c :: replaceBraceGroupsFuel fuel rest
      | [] => c :: replaceBraceGroupsFuel fuel rest
    else c :: replaceBraceGroupsFuel fuel rest

/-- `formatMethodName` (serviceGenerator.ts:133-167). -/
def formatMethodName (method path : String) : String :=
  let cleanPath := String.mk (replaceBraceGroupsFuel path.toList.length path.toList)
  let parts := (jsSplit cleanPath '/').filter (· ≠ "")
  let formattedParts := parts.enum.map (fun q =>
    let i := q.1
    let part := q.2
    if !(part.toList.any isDashUnderscore) ∧ part.length > 0 then
      if i = 0 then lowerFirst part else upperFirst part
    else
      strConcat ((splitOnPred isDashUnderscore part.toList).enum.map (fun w =>
        if i = 0 ∧ w.1 = 0 then String.mk (w.2.map jsToLowerChar)
        else capWordJs w.2)))
  let pathPart := strConcat formattedParts
  jsToLower method ++ upperFirst pathPart

/-- `{name}` → `${params.name}` URL substitution (serviceGenerator.ts:251-257). -/
def urlTemplateOf (path : String) (pParams : List Parameter) : String :=
  pParams.foldl
    (fun u p => jsReplaceOnce u ("\x7b" ++ p.name ++ "\x7d") ("$\x7bparams." ++ p.name ++ "\x7d"))
    path

def omitListStr (ps : List Parameter) : String :=
  String.intercalate ", " (ps.map (fun p => "\"" ++ p.name ++ "\""))

/-- The `requestConfig` lines pushed by `generateServiceMethod`
(serviceGenerator.ts:265-324) together with the helper names added to its
`helpers` set, in insertion order. -/
def serviceRequestConfig (path method : String) (op : OperationObject)
    (schemas : Option (List (String × Schema))) : List String × List String :=
  let methodUpper := jsToUpper method
  let pParams := pathParamsOf op
  let contentType := serviceContentType method op
  let urlLine := "    url: `" ++ urlTemplateOf path pParams ++ "`"
  if methodUpper = "GET" || methodUpper = "DELETE" then
    if pParams.length ≠ 0 then
      ([urlLine, "    params: omitParams(params, [" ++ omitListStr pParams ++ "])",
        "    config"], ["omitParams"])
    else ([urlLine, "    params: params", "    config"], [])
  else
    if contentType = "multipart/form-data" then
      ([urlLine, "    data: buildFormData(params)", "    config"], ["buildFormData"])
    else if contentType = "application/x-www-form-urlencoded" then
      ([urlLine, "    data: buildUrlEncoded(params)", "    config"], ["buildUrlEncoded"])
    else
      let jsonSchema := (op.requestBody.bind RequestBodyObject.content).bind
        (fun c => (jsLookup c "application/json").bind MediaTypeObject.schema)
      let resolved := resolveSchema jsonSchema schemas []
      let schemaForBody := match resolved with | none => jsonSchema | some s => some s
      if schemaForBody.isSome ∧ pParams.length ≠ 0 then
        if isObjectLikeSchema schemaForBody then
          ([urlLine, "    data: omitParams(params, [" ++ omitListStr pParams ++ "])",
            "    config"], ["omitParams"])
        else ([urlLine, "    data: params?.body", "    config"], [])
      else if pParams.length ≠ 0 then
        ([urlLine, "    data: omitParams(params, [" ++ omitListStr pParams ++ "])",
          "    config"], ["omitParams"])
      else ([urlLine, "    data: params", "    config"], [])

structure GeneratedMethod where
  code : String
  helpers : List String
  httpMethod : String
  requestType : String
  responseType : String

/-- `generateServiceMethod` (serviceGenerator.ts:229-357). -/
def generateServiceMethod (path method : String) (op : OperationObject)
    (typePfx matchedTag : String) (schemas : Option (List (String × Schema))) :
    GeneratedMethod :=
  let methodName := formatMethodName method path
  let interfaceBaseName := formatTypeName path method typePfx
  let requestType := interfaceBaseName ++ "Request"
  let responseType := interfaceBaseName ++ "Response"
  let methodUpper := jsToUpper method
  let contentType := serviceContentType method op
  let rc := serviceRequestConfig path method op schemas
  let commentTag :=
    jsOrStr (some matchedTag) (jsOrStr (op.tags.bind (fun l => l.head?)) "未分类")
  let optMark :=
    if op.parameters.isNone || (op.parameters.getD []).length = 0 ||
        (op.parameters.getD []).all (fun p => !boolTruthy p.required) then "?"
    else ""
  let code := "\n/**\n * " ++ jsOrStr op.summary "" ++ "\n * @分类 [" ++ commentTag ++
    "↗](" ++ path ++ ")\n * @请求头 `" ++ methodUpper ++ " " ++ path ++
    "`\n * @contentType " ++ contentType ++ "\n */\nexport const " ++ methodName ++
    " = (\n  params" ++ optMark ++ ": " ++ requestType ++
    ",\n  config?: AxiosRequestConfig<" ++ requestType ++ ">\n) => \x7b\n  return " ++
    methodUpper ++ "<unknown, " ++ responseType ++ ">(\x7b\n" ++
    String.intercalate ",\n" rc.1 ++ "\n  \x7d);\n\x7d;"
  { code := code, helpers := rc.2, httpMethod := methodUpper,
    requestType := requestType, responseType := responseType }

/-! ### Notions used by the cycle-safety claim -/

/-- A property schema whose `$ref` points back to the named schema `A`. -/
def isSelfRefTo (A : String) (prop : Schema) : Prop :=
  strTruthy prop.ref = true ∧ lastSeg (prop.ref.getD "") = A

/-- The direct-name rendering of a property at the cycle point
(generator.ts:222/233): a plain `name<?>: A;` reference, no inlined body. -/
def directRefLine (indent : String) (reqNames : List String) (name : String)
    (prop : Schema) (A : String) : String :=
  propHead indent (descriptionDoc indent prop) name
    (if reqNames.contains name then "" else "?") ++ A ++ ";"

/-! ### Concrete instances used by witnesses -/

/-- A self-referential tree-node schema: `child` points back to `Node`. -/
def nodeProps : List (String × Schema) :=
  [("value", typeOnlySchema "string"), ("child", refOnlySchema "#/components/schemas/Node")]

def nodeSchema : Schema :=
  .mk none (some "object") none none none (some nodeProps) (some ["value"]) none none none

def nodeReg : List (String × Schema) := [("Node", nodeSchema)]

/-- Twelve distinct chain names for the depth-ceiling witness. -/
def chainName : Nat → String
  | 0 => "T0" | 1 => "T1" | 2 => "T2" | 3 => "T3" | 4 => "T4" | 5 => "T5"
  | 6 => "T6" | 7 => "T7" | 8 => "T8" | 9 => "T9" | 10 => "T10" | 11 => "T11"
  | _ => "Tx"

/-- A registry forming a pure `$ref` chain `T0 → T1 → ... → T11`. -/
def chainReg : List (String × Schema) :=
  (List.range 11).map (fun i =>
    (chainName i, refOnlySchema ("#/components/schemas/" ++ chainName (i + 1))))

/-- A mutually recursive two-name registry (`A ↔ B`) for the termination
witness of the client generator's ref resolver. -/
def cycReg : List (String × Schema) :=
  [("A", refOnlySchema "#/components/schemas/B"),
   ("B", refOnlySchema "#/components/schemas/A")]

/-! ### Concrete operation used for the response-selection analysis -/

def c3respDefault : ResponseObject :=
  ⟨some [("application/json", ⟨some (typeOnlySchema "string")⟩)]⟩

def c3resp2XX : ResponseObject :=
  ⟨some [("application/json", ⟨some (typeOnlySchema "number")⟩)]⟩

def c3op : OperationObject :=
  ⟨none, none, none, none, some [("default", c3respDefault), ("2XX", c3resp2XX)]⟩

/-! ### Concrete operations used for the content-type analysis -/

def c5opMultipartJson : OperationObject :=
  ⟨none, none, none,
   some ⟨some [("multipart/form-data", ⟨some (typeOnlySchema "object")⟩),
               ("application/json", ⟨some (typeOnlySchema "object")⟩)]⟩,
   none⟩

def c5op : OperationObject :=
  ⟨none, none,
   some [⟨"page", some "query", none, none, none⟩],
   some ⟨some [("multipart/form-data", ⟨some (typeOnlySchema "object")⟩),
               ("application/json", ⟨some (typeOnlySchema "object")⟩)]⟩,
   none⟩

/-! ### Concrete operations used for the parameter/body-partition analysis -/

def c6idParam : Parameter := ⟨"id", some "path", some true, none, some (typeOnlySchema "integer")⟩

def c6bodySchema : Schema :=
  .mk none (some "object") none none none
    (some [("id", typeOnlySchema "integer"), ("name", typeOnlySchema "string")])
    (some ["id", "name"]) none none none

def c6op : OperationObject :=
  ⟨none, some "updatePet", some [c6idParam],
   some ⟨some [("application/json", ⟨some c6bodySchema⟩)]⟩, none⟩

def c6opMulti : OperationObject :=
  ⟨none, none, some [c6idParam],
   some ⟨some [("multipart/form-data", ⟨some c6bodySchema⟩)]⟩, none⟩

def c6RequestText : String :=
  (requestBlockOf "/pets/\x7bid\x7d" "put" c6op (some []) "Api" "2024-01-01 00:00:00").getD ""

/-- The `application/json` schema probed by `generateServiceMethod`
(serviceGenerator.ts:286-288). -/
def jsonBodySchemaOf (op : OperationObject) : Option Schema :=
  (op.requestBody.bind RequestBodyObject.content).bind
    (fun c => (jsLookup c "application/json").bind MediaTypeObject.schema)

/-- `schemaForBody` (serviceGenerator.ts:289-293): the resolved JSON body
schema, falling back to the raw one. -/
def schemaForBodyOf (op : OperationObject) (schemas : Option (List (String × Schema))) :
    Option Schema :=
  match resolveSchema (jsonBodySchemaOf op) schemas [] with
  | none => jsonBodySchemaOf op
  | some s => some s


/-! ### Timestamp-splice decomposition of the generated text -/

/-- `joinWith u [c1, c2, ..., cn]` is `c1 ++ u ++ c2 ++ u ++ ... ++ u ++ cn`:
the chunks with `u` spliced between consecutive chunks. -/
def joinWith (u : String) : List String → String
  | [] => ""
  | c :: cs => cs.foldl (fun a c2 => a ++ (u ++ c2)) c

/-- Chunk-list concatenation: `joinWith u (spliceCat xs ys)` is
`joinWith u xs ++ joinWith u ys`. -/
def spliceCat : List String → List String → List String
  | [], ys => ys
  | x :: xs, ys =>
    match xs, ys with
    | [], [] => [x]
    | [], y :: ys2 => (x ++ y) :: ys2
    | _ :: _, _ => x :: spliceCat xs ys

/-- The clock-independent remainder of the Request block: everything after
its doc-comment header. -/
def requestBlockRest (path method : String) (op : OperationObject)
    (schemas : Option (List (String × Schema))) (typePfx : String) : Option String :=
  let requestInterfaceName := formatTypeName path method typePfx ++ "Request"
  if (op.parameters.getD []).length ≠ 0 || op.requestBody.isSome then
    match generateRequestBodyType op schemas with
    | none => none
    | some (rbType, rbProps) =>
      let parameterProps := parameterPropsOf op
      if rbType = "type" ∧ parameterProps = "" then
        some ("export type " ++ requestInterfaceName ++ " = " ++ rbProps ++ ";\n\n")
      else if rbType = "type" then
        some ("export interface " ++ requestInterfaceName ++ " \x7b\n" ++
          parameterProps ++
          "\n\n  /**\n   * 请求体数据\n   */\n  requestBody: " ++ rbProps ++
          ";\n\x7d\n\n")
      else
        let allProps := parameterProps ++
          (if rbProps ≠ "" ∧ rbType = "interface" then
            (if parameterProps ≠ "" then "\n\n" else "") ++ rbProps
          else "")
        some ("export interface " ++ requestInterfaceName ++ " \x7b\n" ++
          allProps ++ "\n\x7d\n\n")
  else
    some ("export interface " ++ requestInterfaceName ++
      " \x7b\n  // This API doesn't require any parameters\n\x7d\n\n")

/-- The clock-independent remainder of the Response block. -/
def responseBlockRest (path method : String) (op : OperationObject)
    (schemas : Option (List (String × Schema))) (typePfx : String) : String :=
  let responseInterfaceName := formatTypeName path method typePfx ++ "Response"
  match getSuccessfulResponseSchema op with
  | some (schema, _, _) =>
    let responseProps := (generateTypeProps schema "  " ⟨schemas, []⟩).1
    "export interface " ++ responseInterfaceName ++ " \x7b\n" ++
      responseProps ++ "\n\x7d\n\n"
  | none =>
    "export interface " ++ responseInterfaceName ++
      " \x7b\n  // This API doesn't have a defined response type\n\x7d\n\n"

/-- The tag label of the doc-comment header (generator.ts:732). -/
def tagOf (op : OperationObject) : String :=
  jsOrStr (op.tags.bind (fun l => l.head?)) "Uncategorized"

/-! ### Concrete spec used for the clock-dependence analysis -/
def c2spec : OpenAPISpec :=
  ⟨some [("/pets",
     [("get",
       ⟨some ["pets"], some "listPets", none, none,
        some [("200", ⟨some [("application/json", ⟨some (typeOnlySchema "string")⟩)]⟩)]⟩)])],
   none⟩

/-- The clock-independent part of the doc-comment header before the update
time. -/
def opDocHeaderPre (kind path tag method : String) (summary : Option String) : String :=
  "\n/**\n * 接口 [" ++ jsInterp summary ++ "↗](" ++ path ++ ") 的 **" ++ kind ++
    "**\n *\n * @分类 [" ++ tag ++ "↗](" ++ path ++ ")\n * @请求头 `" ++
    jsToUpper method ++ " " ++ path ++ "`\n * @更新时间 `"

/-- The part of the doc-comment header after the update time. -/
def opDocHeaderSuf : String := "`\n */\n"

/-! ### Character-class lemmas for the identifier theorems -/

theorem toNat_ofNat_small (n : Nat) (h : n < 0xd800) : (Char.ofNat n).toNat = n := by
  have hv : n.isValidChar := Or.inl h
  rw [Char.ofNat, dif_pos hv]
  simp [Char.ofNatAux, Char.toNat, UInt32.toNat, BitVec.toNat_ofNatLt]

theorem isAsciiUpper_iff {c : Char} : isAsciiUpper c = true ↔ (65 ≤ c.toNat ∧ c.toNat ≤ 90) := by
  simp [isAsciiUpper]

theorem isAsciiLower_iff {c : Char} : isAsciiLower c = true ↔ (97 ≤ c.toNat ∧ c.toNat ≤ 122) := by
  simp [isAsciiLower]

theorem isAsciiDigit_iff {c : Char} : isAsciiDigit c = true ↔ (48 ≤ c.toNat ∧ c.toNat ≤ 57) := by
  simp [isAsciiDigit]

theorem isAlnumChar_iff {c : Char} :
    isAlnumChar c = true ↔
      ((65 ≤ c.toNat ∧ c.toNat ≤ 90) ∨ (97 ≤ c.toNat ∧ c.toNat ≤ 122) ∨
        (48 ≤ c.toNat ∧ c.toNat ≤ 57)) := by
  simp [isAlnumChar, isAsciiLetter, isAsciiUpper, isAsciiLower, isAsciiDigit]
  tauto

theorem isAsciiLetter_iff {c : Char} :
    isAsciiLetter c = true ↔ ((65 ≤ c.toNat ∧ c.toNat ≤ 90) ∨ (97 ≤ c.toNat ∧ c.toNat ≤ 122)) := by
  simp [isAsciiLetter, isAsciiUpper, isAsciiLower]

theorem jsToLowerChar_alnum {c : Char} (h : isAlnumChar c = true) :
    isAlnumChar (jsToLowerChar c) = true := by
  unfold jsToLowerChar
  split
  · rename_i h1
    have h2 : (Char.ofNat (c.toNat + 32)).toNat = c.toNat + 32 :=
      toNat_ofNat_small _ (by omega)
    rw [isAlnumChar_iff, h2]
    omega
  · exact h

theorem jsToUpperChar_alnum {c : Char} (h : isAlnumChar c = true) :
    isAlnumChar (jsToUpperChar c) = true := by
  unfold jsToUpperChar
  split
  · rename_i h1
    have h2 : (Char.ofNat (c.toNat - 32)).toNat = c.toNat - 32 :=
      toNat_ofNat_small _ (by omega)
    rw [isAlnumChar_iff, h2]
    omega
  · exact h

theorem jsToUpperChar_letter {c : Char} (h : isAsciiLetter c = true) :
    isAsciiLetter (jsToUpperChar c) = true := by
  unfold jsToUpperChar
  split
  · rename_i h1
    have h2 : (Char.ofNat (c.toNat - 32)).toNat = c.toNat - 32 :=
      toNat_ofNat_small _ (by omega)
    rw [isAsciiLetter_iff, h2]
    omega
  · exact h

theorem lowMisc_ascii_lower {c : Char} (h1 : lowMisc c = true) (h2 : isAsciiChar c = true) :
    isAsciiLower c = true := by
  simp [lowMisc, isMiscChar, h2] at h1
  exact h1

theorem ordSuffix_alnum {d : Char} {u : Bool} {ch : Char} (h : ch ∈ ordSuffix d u) :
    isAlnumChar ch = true := by
  unfold ordSuffix at h
  split_ifs at h <;>
    (simp only [List.mem_cons, List.not_mem_nil, or_false] at h;
     rcases h with h | h <;> subst h <;> decide)

theorem ascii_subset {l₁ l₂ : List Char} (hsub : l₁ ⊆ l₂)
    (h : ∀ c ∈ l₂, isAsciiChar c = true) : ∀ c ∈ l₁, isAsciiChar c = true :=
  fun c hc => h c (hsub hc)

/-- Every word produced by the lodash word splitter from an all-ASCII input
consists of letters and digits only. -/
theorem lodashWordsFuel_alnum :
    ∀ (fuel : Nat) (cs : List Char), (∀ c ∈ cs, isAsciiChar c = true) →
      ∀ w ∈ lodashWordsFuel fuel cs, ∀ ch ∈ w, isAlnumChar ch = true := by
  intro fuel cs
  induction fuel, cs using lodashWordsFuel.induct with
  | case1 =>
    intro _ w hw
    simp [lodashWordsFuel] at hw
  | case2 =>
    intro _ w hw
    simp [lodashWordsFuel] at hw
  | case3 fuel c rest hc ups after hafter =>
    intro h w hw ch hch
    rw [lodashWordsFuel, if_pos hc] at hw
    dsimp only [] at hw
    have hafter' : List.drop (List.takeWhile isAsciiUpper rest).length rest = [] := hafter
    rw [hafter'] at hw
    dsimp only [] at hw
    simp only [List.mem_singleton] at hw
    subst hw
    rcases List.mem_cons.mp hch with h1 | h1
    · subst h1; rw [isAlnumChar_iff]; rw [isAsciiUpper_iff] at hc; omega
    · have := List.mem_takeWhile_imp h1
      rw [isAlnumChar_iff]; rw [isAsciiUpper_iff] at this; omega
  | case4 fuel c rest hc ups after d ds' hafter hlow hemp lows ih =>
    intro h w hw ch hch
    have hlows : lows = List.takeWhile lowMisc after := rfl
    have h_after : after = List.drop (List.takeWhile isAsciiUpper rest).length rest := rfl
    clear_value lows after
    have hemp' : (List.takeWhile isAsciiUpper rest).isEmpty = true := hemp
    have hafter' : List.drop (List.takeWhile isAsciiUpper rest).length rest = d :: ds' := by
      rw [← h_after]; exact hafter
    rw [hafter] at hlows
    rw [hafter, hlows] at ih
    rw [lodashWordsFuel, if_pos hc] at hw
    dsimp only [] at hw
    rw [hafter'] at hw
    dsimp only [] at hw
    rw [if_pos hlow, if_pos hemp'] at hw
    rcases List.mem_cons.mp hw with h1 | h1
    · subst h1
      rcases List.mem_cons.mp hch with h2 | h2
      · subst h2; rw [isAlnumChar_iff]; rw [isAsciiUpper_iff] at hc; omega
      · have hlm := List.mem_takeWhile_imp h2
        have hmem : ch ∈ rest := by
          have h3 : ch ∈ d :: ds' := (List.takeWhile_prefix _).subset h2
          rw [← hafter'] at h3
          exact List.drop_subset _ rest h3
        have := lowMisc_ascii_lower hlm (h ch (List.mem_cons_of_mem _ hmem))
        rw [isAlnumChar_iff]; rw [isAsciiLower_iff] at this; omega
    · refine ih ?_ w ?_ ch hch
      · refine ascii_subset ?_ h
        intro x hx
        refine List.mem_cons_of_mem _ ?_
        have h3 : x ∈ d :: ds' := List.drop_subset _ _ hx
        rw [← hafter'] at h3
        exact List.drop_subset _ rest h3
      · exact h1
  | case5 fuel c rest hc ups after d ds' hafter hlow hemp ih =>
    intro h w hw ch hch
    rw [lodashWordsFuel, if_pos hc] at hw
    dsimp only [] at hw
    have hafter' : List.drop (List.takeWhile isAsciiUpper rest).length rest = d :: ds' := hafter
    have hemp' : ¬(List.takeWhile isAsciiUpper rest).isEmpty = true := hemp
    rw [hafter'] at hw
    dsimp only [] at hw
    rw [if_pos hlow, if_neg hemp'] at hw
    rcases List.mem_cons.mp hw with h1 | h1
    · subst h1
      rcases List.mem_cons.mp hch with h2 | h2
      · subst h2; rw [isAlnumChar_iff]; rw [isAsciiUpper_iff] at hc; omega
      · have h3 : ch ∈ List.takeWhile isAsciiUpper rest := List.dropLast_subset _ h2
        have := List.mem_takeWhile_imp h3
        rw [isAlnumChar_iff]; rw [isAsciiUpper_iff] at this; omega
    · exact ih (ascii_subset
        (fun x hx => List.mem_cons_of_mem _ (List.drop_subset _ rest hx)) h) w h1 ch hch
  | case6 fuel c rest hc ups after d ds' hafter hnotlow ih =>
    intro h w hw ch hch
    have h_after : after = List.drop (List.takeWhile isAsciiUpper rest).length rest := rfl
    clear_value after
    have hafter' : List.drop (List.takeWhile isAsciiUpper rest).length rest = d :: ds' := by
      rw [← h_after]; exact hafter
    rw [lodashWordsFuel, if_pos hc] at hw
    dsimp only [] at hw
    rw [hafter'] at hw
    dsimp only [] at hw
    rw [if_neg hnotlow] at hw
    rcases List.mem_cons.mp hw with h1 | h1
    · subst h1
      rcases List.mem_cons.mp hch with h2 | h2
      · subst h2; rw [isAlnumChar_iff]; rw [isAsciiUpper_iff] at hc; omega
      · have := List.mem_takeWhile_imp h2
        rw [isAlnumChar_iff]; rw [isAsciiUpper_iff] at this; omega
    · rw [hafter] at ih
      refine ih (ascii_subset ?_ h) w h1 ch hch
      intro x hx
      refine List.mem_cons_of_mem _ ?_
      rw [← hafter'] at hx
      exact List.drop_subset _ rest hx
  | case7 fuel c rest hc hlowc lows ih =>
    intro h w hw ch hch
    rw [lodashWordsFuel, if_neg hc, if_pos hlowc] at hw
    dsimp only [] at hw
    rcases List.mem_cons.mp hw with h1 | h1
    · subst h1
      rcases List.mem_cons.mp hch with h2 | h2
      · rw [h2]
        have := lowMisc_ascii_lower hlowc (h c (List.mem_cons_self _ _))
        rw [isAlnumChar_iff]; rw [isAsciiLower_iff] at this; omega
      · have hlm := List.mem_takeWhile_imp h2
        have hmem : ch ∈ rest := (List.takeWhile_prefix _).subset h2
        have := lowMisc_ascii_lower hlm (h ch (List.mem_cons_of_mem _ hmem))
        rw [isAlnumChar_iff]; rw [isAsciiLower_iff] at this; omega
    · exact ih (ascii_subset
        (fun x hx => List.mem_cons_of_mem _ (List.drop_subset _ rest hx)) h) w h1 ch hch
  | case8 fuel c rest hc hlowc hd ds after lastD hordU ih =>
    intro h w hw ch hch
    rw [lodashWordsFuel, if_neg hc, if_neg hlowc, if_pos hd] at hw
    dsimp only [] at hw
    have hordU' : (decide
        (List.take 2 (List.drop (List.takeWhile isAsciiDigit rest).length rest) =
          ordSuffix ((List.takeWhile isAsciiDigit rest).getLastD c) true) &&
        ordLookUpper
          (List.drop 2 (List.drop (List.takeWhile isAsciiDigit rest).length rest)).head?) =
        true := hordU
    rw [if_pos hordU'] at hw
    rcases List.mem_cons.mp hw with h1 | h1
    · subst h1
      rcases List.mem_cons.mp hch with h2 | h2
      · subst h2; rw [isAlnumChar_iff]; rw [isAsciiDigit_iff] at hd; omega
      · rcases List.mem_append.mp h2 with h3 | h3
        · have := List.mem_takeWhile_imp h3
          rw [isAlnumChar_iff]; rw [isAsciiDigit_iff] at this; omega
        · exact ordSuffix_alnum h3
    · exact ih (ascii_subset
        (fun x hx => List.mem_cons_of_mem _
          (List.drop_subset _ rest (List.drop_subset _ _ hx))) h) w h1 ch hch
  | case9 fuel c rest hc hlowc hd ds after lastD hnordU hordL ih =>
    intro h w hw ch hch
    rw [lodashWordsFuel, if_neg hc, if_neg hlowc, if_pos hd] at hw
    dsimp only [] at hw
    have hnordU' : ¬(decide
        (List.take 2 (List.drop (List.takeWhile isAsciiDigit rest).length rest) =
          ordSuffix ((List.takeWhile isAsciiDigit rest).getLastD c) true) &&
        ordLookUpper
          (List.drop 2 (List.drop (List.takeWhile isAsciiDigit rest).length rest)).head?) =
        true := hnordU
    have hordL' : (decide
        (List.take 2 (List.drop (List.takeWhile isAsciiDigit rest).length rest) =
          ordSuffix ((List.takeWhile isAsciiDigit rest).getLastD c) false) &&
        ordLookLower
          (List.drop 2 (List.drop (List.takeWhile isAsciiDigit rest).length rest)).head?) =
        true := hordL
    rw [if_neg hnordU', if_pos hordL'] at hw
    rcases List.mem_cons.mp hw with h1 | h1
    · subst h1
      rcases List.mem_cons.mp hch with h2 | h2
      · subst h2; rw [isAlnumChar_iff]; rw [isAsciiDigit_iff] at hd; omega
      · rcases List.mem_append.mp h2 with h3 | h3
        · have := List.mem_takeWhile_imp h3
          rw [isAlnumChar_iff]; rw [isAsciiDigit_iff] at this; omega
        · exact ordSuffix_alnum h3
    · exact ih (ascii_subset
        (fun x hx => List.mem_cons_of_mem _
          (List.drop_subset _ rest (List.drop_subset _ _ hx))) h) w h1 ch hch
  | case10 fuel c rest hc hlowc hd ds after lastD hnordU hnordL ih =>
    intro h w hw ch hch
    rw [lodashWordsFuel, if_neg hc, if_neg hlowc, if_pos hd] at hw
    dsimp only [] at hw
    have hnordU' : ¬(decide
        (List.take 2 (List.drop (List.takeWhile isAsciiDigit rest).length rest) =
          ordSuffix ((List.takeWhile isAsciiDigit rest).getLastD c) true) &&
        ordLookUpper
          (List.drop 2 (List.drop (List.takeWhile isAsciiDigit rest).length rest)).head?) =
        true := hnordU
    have hnordL' : ¬(decide
        (List.take 2 (List.drop (List.takeWhile isAsciiDigit rest).length rest) =
          ordSuffix ((List.takeWhile isAsciiDigit rest).getLastD c) false) &&
        ordLookLower
          (List.drop 2 (List.drop (List.takeWhile isAsciiDigit rest).length rest)).head?) =
        true := hnordL
    rw [if_neg hnordU', if_neg hnordL'] at hw
    rcases List.mem_cons.mp hw with h1 | h1
    · subst h1
      rcases List.mem_cons.mp hch with h2 | h2
      · subst h2; rw [isAlnumChar_iff]; rw [isAsciiDigit_iff] at hd; omega
      · have := List.mem_takeWhile_imp h2
        rw [isAlnumChar_iff]; rw [isAsciiDigit_iff] at this; omega
    · exact ih (ascii_subset
        (fun x hx => List.mem_cons_of_mem _ (List.drop_subset _ rest hx)) h) w h1 ch hch
  | case11 fuel c rest hc hlowc hd ih =>
    intro h w hw ch hch
    rw [lodashWordsFuel, if_neg hc, if_neg hlowc, if_neg hd] at hw
    exact ih (ascii_subset (fun x hx => List.mem_cons_of_mem _ hx) h) w hw ch hch

theorem lodashWords_alnum :
    ∀ cs : List Char, (∀ c ∈ cs, isAsciiChar c = true) →
      ∀ w ∈ lodashWords cs, ∀ ch ∈ w, isAlnumChar ch = true :=
  fun cs h => lodashWordsFuel_alnum cs.length cs h

/-! ### String-level helper lemmas -/

theorem strToList_append (a b : String) : (a ++ b).toList = a.toList ++ b.toList := by
  simp [String.toList]

theorem mk_toList (l : List Char) : (String.mk l).toList = l := rfl

theorem toList_cons_ne_empty {s : String} {c : Char} {cs : List Char}
    (h : s.toList = c :: cs) : s ≠ "" := by
  intro he
  rw [he] at h
  simp [String.toList] at h

theorem mk_ne_empty_iff {l : List Char} : (String.mk l ≠ "") ↔ l ≠ [] := by
  constructor
  · intro h he
    apply h
    rw [he]
  · intro h he
    apply h
    have : (String.mk l).data = ("" : String).data := by rw [he]
    simpa using this

theorem strConcat_chars {l : List String} {c : Char} (h : c ∈ (strConcat l).toList) :
    ∃ s ∈ l, c ∈ s.toList := by
  induction l with
  | nil => simp [strConcat, String.toList] at h
  | cons s rest ih =>
    rw [strConcat, strToList_append] at h
    rcases List.mem_append.mp h with h1 | h1
    · exact ⟨s, List.mem_cons_self _ _, h1⟩
    · obtain ⟨t, ht, hc⟩ := ih h1
      exact ⟨t, List.mem_cons_of_mem _ ht, hc⟩

theorem splitOnChar_subset {sep : Char} :
    ∀ cs : List Char, ∀ w ∈ splitOnChar sep cs, ∀ c ∈ w, c ∈ cs := by
  intro cs
  induction cs with
  | nil =>
    intro w hw c hc
    simp [splitOnChar] at hw
    subst hw
    simp at hc
  | cons x xs ih =>
    intro w hw c hc
    rw [splitOnChar] at hw
    split at hw
    · rcases List.mem_cons.mp hw with h1 | h1
      · subst h1; simp at hc
      · exact List.mem_cons_of_mem _ (ih w h1 c hc)
    · rename_i hne
      split at hw
      · rename_i heq
        simp only [List.mem_singleton] at hw
        subst hw
        rcases List.mem_cons.mp hc with h2 | h2
        · subst h2; exact List.mem_cons_self _ _
        · simp at h2
      · rename_i w' ws heq
        rcases List.mem_cons.mp hw with h1 | h1
        · subst h1
          rcases List.mem_cons.mp hc with h2 | h2
          · subst h2; exact List.mem_cons_self _ _
          · have hw' : w' ∈ splitOnChar sep xs := by rw [heq]; exact List.mem_cons_self _ _
            exact List.mem_cons_of_mem _ (ih w' hw' c h2)
        · have hw2 : w ∈ splitOnChar sep xs := by rw [heq]; exact List.mem_cons_of_mem _ h1
          exact List.mem_cons_of_mem _ (ih w hw2 c hc)

theorem jsSplit_chars {s : String} {part : String} (hp : part ∈ jsSplit s sep)
    {c : Char} (hc : c ∈ part.toList) : c ∈ s.toList := by
  unfold jsSplit at hp
  obtain ⟨w, hw, hmk⟩ := List.mem_map.mp hp
  subst hmk
  exact splitOnChar_subset _ w hw c hc

theorem lodashCapitalize_alnum {w : List Char} (h : ∀ c ∈ w, isAlnumChar c = true) :
    ∀ ch ∈ (lodashCapitalize w).toList, isAlnumChar ch = true := by
  intro ch hch
  unfold lodashCapitalize at hch
  split at hch
  · simp [String.toList] at hch
  · rename_i c cs heq
    rw [mk_toList] at hch
    rcases List.mem_cons.mp hch with h1 | h1
    · subst h1
      have hc : c ∈ w.map jsToLowerChar := by rw [heq]; exact List.mem_cons_self _ _
      obtain ⟨a, ha, hmap⟩ := List.mem_map.mp hc
      subst hmap
      exact jsToUpperChar_alnum (jsToLowerChar_alnum (h a ha))
    · have hc : ch ∈ w.map jsToLowerChar := by rw [heq]; exact List.mem_cons_of_mem _ h1
      obtain ⟨a, ha, hmap⟩ := List.mem_map.mp hc
      subst hmap
      exact jsToLowerChar_alnum (h a ha)

theorem lodashCamelCase_alnum {s : String} (h : ∀ c ∈ s.toList, isAsciiChar c = true) :
    ∀ ch ∈ (lodashCamelCase s).toList, isAlnumChar ch = true := by
  intro ch hch
  unfold lodashCamelCase at hch
  have hclean : ∀ c ∈ s.toList.filter (fun c => !(c = '\'' || c = '’')), isAsciiChar c = true :=
    ascii_subset (fun c hc => List.mem_of_mem_filter hc) h
  dsimp only [] at hch
  split at hch
  · simp [String.toList] at hch
  · rename_i w ws heq
    rw [strToList_append, mk_toList] at hch
    rcases List.mem_append.mp hch with h1 | h1
    · obtain ⟨a, ha, hmap⟩ := List.mem_map.mp h1
      subst hmap
      have hwmem : w ∈ lodashWords (s.toList.filter (fun c => !(c = '\'' || c = '’'))) := by
        rw [heq]; exact List.mem_cons_self _ _
      exact jsToLowerChar_alnum (lodashWords_alnum _ hclean w hwmem a ha)
    · obtain ⟨t, ht, hc⟩ := strConcat_chars h1
      obtain ⟨w', hw', hmap⟩ := List.mem_map.mp ht
      subst hmap
      have hwmem : w' ∈ lodashWords (s.toList.filter (fun c => !(c = '\'' || c = '’'))) := by
        rw [heq]; exact List.mem_cons_of_mem _ hw'
      exact lodashCapitalize_alnum (lodashWords_alnum _ hclean w' hwmem) ch hc

theorem upperFirst_alnum {s : String} (h : ∀ c ∈ s.toList, isAlnumChar c = true) :
    ∀ ch ∈ (upperFirst s).toList, isAlnumChar ch = true := by
  intro ch hch
  unfold upperFirst at hch
  split at hch
  · simp [String.toList] at hch
  · rename_i c cs heq
    rw [mk_toList] at hch
    rcases List.mem_cons.mp hch with h1 | h1
    · subst h1
      exact jsToUpperChar_alnum (h c (by rw [heq]; exact List.mem_cons_self _ _))
    · exact h ch (by rw [heq]; exact List.mem_cons_of_mem _ h1)

/-! ### C7 / C8 -/

/-- C7 (corrected, counterexample part): as stated the claim is false — for
inputs whose method (or prefix) contains characters other than letters and
digits, `formatTypeName` passes them through verbatim, so the output is not a
valid identifier.  Concretely `formatTypeName "/a" "get x" "Api"` is
`"ApiGet xA"`, which contains a space. -/
theorem c7_counterexample :
    isValidIdent (formatTypeName "/a" "get x" "Api") = false ∧
      formatTypeName "/a" "get x" "Api" = "ApiGet xA" := by
  constructor
  · decide
  · decide

/-- C7 (amended): `formatTypeName` is a pure total function (determinism is
by construction of the model), and whenever the prefix is itself a valid
identifier, the method consists of letters and digits only, and the path is
ASCII, the output is a valid identifier: it starts with a letter and contains
only letters and digits. -/
theorem c7_typeName_valid (path method pfx : String)
    (hpfx : isValidIdent pfx = true)
    (hmethod : ∀ c ∈ method.toList, isAlnumChar c = true)
    (hpath : ∀ c ∈ path.toList, isAsciiChar c = true) :
    isValidIdent (formatTypeName path method pfx) = true := by
  have hum : ∀ ch ∈ (upperFirst method).toList, isAlnumChar ch = true := upperFirst_alnum hmethod
  have hpp : ∀ ch ∈ (strConcat (((jsSplit path '/').filter (· ≠ "")).map
      (fun seg => upperFirst (lodashCamelCase seg)))).toList, isAlnumChar ch = true := by
    intro ch hch
    obtain ⟨t, ht, hc⟩ := strConcat_chars hch
    obtain ⟨seg, hseg, hmap⟩ := List.mem_map.mp ht
    subst hmap
    have hsegmem : seg ∈ jsSplit path '/' := List.mem_of_mem_filter hseg
    have hsegascii : ∀ c ∈ seg.toList, isAsciiChar c = true :=
      fun c hc' => hpath c (jsSplit_chars hsegmem hc')
    exact upperFirst_alnum (lodashCamelCase_alnum hsegascii) ch hc
  unfold formatTypeName
  dsimp only []
  unfold isValidIdent at hpfx ⊢
  rcases hl : pfx.toList with _ | ⟨c, cs⟩
  · rw [hl] at hpfx
    simp at hpfx
  · rw [hl] at hpfx
    rw [strToList_append, strToList_append, hl]
    simp only [List.cons_append]
    simp only [Bool.and_eq_true, List.all_append, List.all_eq_true] at hpfx ⊢
    exact ⟨hpfx.1, ⟨hpfx.2, fun x hx => hum x hx⟩, fun x hx => hpp x hx⟩

/-- Witness for `c7_typeName_valid` at the spec's concrete scenario:
`typeName("Api", "get", "/user/{id}/orders")`. -/
theorem c7_witness :
    isValidIdent (formatTypeName "/user/{id}/orders" "get" "Api") = true :=
  c7_typeName_valid "/user/{id}/orders" "get" "Api" (by decide) (by decide) (by decide)

/-- C8 (confirmed, over the modelled ASCII domain): `formatModuleName` is
total and safe — the result is never empty and always starts with an ASCII
letter (never a digit or symbol).  The three cases of the source (sanitized
camel-case; `module` + capitalized camel-case when sanitizing empties a
non-empty camelization; the fixed default `"module"`) all satisfy this. -/
theorem c8_moduleName_safe (name : String)
    (h : ∀ c ∈ name.toList, isAsciiChar c = true) :
    formatModuleName name ≠ "" ∧
      ∃ c cs, (formatModuleName name).toList = c :: cs ∧ isAsciiLetter c = true := by
  have hcam : ∀ ch ∈ (lodashCamelCase name).toList, isAlnumChar ch = true :=
    lodashCamelCase_alnum h
  unfold formatModuleName
  dsimp only []
  split
  · rename_i hne
    rcases hd : (lodashCamelCase name).toList.dropWhile (fun c => !isAsciiLetter c) with
      _ | ⟨c, cs⟩
    · exfalso
      apply hne
      rw [hd]
    · have hp : (fun c => !isAsciiLetter c) c = false := by
        have := List.head?_dropWhile_not (fun c => !isAsciiLetter c) (lodashCamelCase name).toList
        rw [hd] at this
        simpa using this
      refine ⟨?_, c, cs, ?_, ?_⟩
      · rw [mk_ne_empty_iff]
        simp
      · rw [mk_toList]
      · simpa using hp
  · split
    · refine ⟨?_, 'm', ("odule" ++ upperFirst (lodashCamelCase name)).toList, ?_, ?_⟩
      · intro he
        have : ("module" ++ upperFirst (lodashCamelCase name)).toList = [] := by
          rw [he]; rfl
        rw [strToList_append] at this
        simp [String.toList] at this
      · rw [strToList_append, strToList_append]
        rfl
      · decide
    · exact ⟨by decide, 'm', "odule".toList, by decide, by decide⟩

/-- Witness for `c8_moduleName_safe` on the purely numeric label `"123"`,
which exercises the `module` fallback prefix. -/
theorem c8_witness :
    formatModuleName "123" ≠ "" ∧
      ∃ c cs, (formatModuleName "123").toList = c :: cs ∧ isAsciiLetter c = true :=
  c8_moduleName_safe "123" (by decide)

/-! ### Frame and monotonicity lemmas for the schema renderer -/

theorem addRef_schemas (st : GenState) (n : String) : (addRef st n).schemas = st.schemas := by
  unfold addRef
  split <;> rfl

theorem mem_addRef {st : GenState} {n x : String} :
    x ∈ (addRef st n).refs ↔ x ∈ st.refs ∨ x = n := by
  unfold addRef
  split
  · rename_i h
    constructor
    · exact Or.inl
    · intro hx
      rcases hx with hx | hx
      · exact hx
      · subst hx
        simpa using h
  · simp

theorem addRef_refs_mono {st : GenState} {n x : String} (h : x ∈ st.refs) :
    x ∈ (addRef st n).refs := mem_addRef.mpr (Or.inl h)

theorem renderProp_schemas (rec : Schema → String → GenState → String × GenState)
    (hrec : ∀ s i st', ((rec s i st').2).schemas = st'.schemas)
    (indent : String) (reqNames : List String) (name : String) (prop : Schema)
    (st : GenState) :
    ((renderProp rec indent reqNames name prop st).2).schemas = st.schemas := by
  unfold renderProp
  dsimp only []
  repeat' split
  all_goals first
    | rfl
    | (rw [hrec, addRef_schemas])
    | (rw [hrec])
    | (rw [addRef_schemas])

theorem goProps_schemas (rec : Schema → String → GenState → String × GenState)
    (hrec : ∀ s i st', ((rec s i st').2).schemas = st'.schemas)
    (indent : String) (reqNames : List String) :
    ∀ (props : List (String × Schema)) (st : GenState),
      ((goProps rec indent reqNames props st).2).schemas = st.schemas := by
  intro props
  induction props with
  | nil => intro st; rfl
  | cons q rest ih =>
    intro st
    rw [goProps]
    have h1 := renderProp_schemas rec hrec indent reqNames q.1 q.2 st
    rcases hr : renderProp rec indent reqNames q.1 q.2 st with ⟨line?, st1⟩
    rw [hr] at h1
    match line? with
    | none => simpa using h1
    | some line =>
      dsimp only []
      have h2 := ih st1
      rcases hg : goProps rec indent reqNames rest st1 with ⟨lines?, st2⟩
      rw [hg] at h2
      match lines? with
      | none => simp_all
      | some lines => simp_all

theorem genStep_schemas (rec : Schema → String → GenState → String × GenState)
    (hrec : ∀ s i st', ((rec s i st').2).schemas = st'.schemas)
    (schema : Option Schema) (indent : String) (st : GenState) :
    ((genStep rec schema indent st).2).schemas = st.schemas := by
  unfold genStep
  match schema with
  | none => rfl
  | some s =>
    dsimp only []
    repeat' split
    all_goals first
      | rfl
      | (rw [hrec, addRef_schemas])
      | (rw [hrec])
      | (rw [addRef_schemas])
      | (rename_i heq
         have h2 := goProps_schemas rec hrec indent (s.required.getD [])
           (s.properties.getD []) st
         rw [heq] at h2
         exact h2)

theorem goGen_schemas :
    ∀ (b : Nat) (schema : Option Schema) (indent : String) (st : GenState),
      ((goGen b schema indent st).2).schemas = st.schemas := by
  intro b
  induction b with
  | zero => intro schema indent st; rfl
  | succ n ih =>
    intro schema indent st
    rw [goGen]
    exact genStep_schemas _ (fun s i st' => ih (some s) i st') schema indent st

theorem renderProp_refs_mono (rec : Schema → String → GenState → String × GenState)
    (hrec : ∀ s i st' x, x ∈ st'.refs → x ∈ ((rec s i st').2).refs)
    (indent : String) (reqNames : List String) (name : String) (prop : Schema)
    (st : GenState) (x : String) (hx : x ∈ st.refs) :
    x ∈ ((renderProp rec indent reqNames name prop st).2).refs := by
  unfold renderProp
  dsimp only []
  repeat' split
  all_goals first
    | (exact hx)
    | (exact addRef_refs_mono hx)
    | (exact hrec _ _ _ _ (addRef_refs_mono hx))
    | (exact hrec _ _ _ _ hx)

theorem goProps_refs_mono (rec : Schema → String → GenState → String × GenState)
    (hrec : ∀ s i st' x, x ∈ st'.refs → x ∈ ((rec s i st').2).refs)
    (indent : String) (reqNames : List String) :
    ∀ (props : List (String × Schema)) (st : GenState) (x : String),
      x ∈ st.refs → x ∈ ((goProps rec indent reqNames props st).2).refs := by
  intro props
  induction props with
  | nil => intro st x hx; exact hx
  | cons q rest ih =>
    intro st x hx
    rw [goProps]
    have h1 := renderProp_refs_mono rec hrec indent reqNames q.1 q.2 st x hx
    rcases hr : renderProp rec indent reqNames q.1 q.2 st with ⟨line?, st1⟩
    rw [hr] at h1
    match line? with
    | none => exact h1
    | some line =>
      dsimp only []
      have h2 := ih st1 x h1
      rcases hg : goProps rec indent reqNames rest st1 with ⟨lines?, st2⟩
      rw [hg] at h2
      match lines? with
      | none => exact h2
      | some lines => exact h2

theorem genStep_refs_mono (rec : Schema → String → GenState → String × GenState)
    (hrec : ∀ s i st' x, x ∈ st'.refs → x ∈ ((rec s i st').2).refs)
    (schema : Option Schema) (indent : String) (st : GenState) (x : String)
    (hx : x ∈ st.refs) :
    x ∈ ((genStep rec schema indent st).2).refs := by
  unfold genStep
  match schema with
  | none => exact hx
  | some s =>
    dsimp only []
    repeat' split
    all_goals first
      | (exact hx)
      | (exact addRef_refs_mono hx)
      | (exact hrec _ _ _ _ (addRef_refs_mono hx))
      | (exact hrec _ _ _ _ hx)
      | (rename_i heq
         have h2 := goProps_refs_mono rec hrec indent (s.required.getD [])
           (s.properties.getD []) st x hx
         rw [heq] at h2
         exact h2)

theorem goGen_refs_mono :
    ∀ (b : Nat) (schema : Option Schema) (indent : String) (st : GenState) (x : String),
      x ∈ st.refs → x ∈ ((goGen b schema indent st).2).refs := by
  intro b
  induction b with
  | zero => intro schema indent st x hx; exact hx
  | succ n ih =>
    intro schema indent st x hx
    rw [goGen]
    exact genStep_refs_mono _ (fun s i st' x' hx' => ih (some s) i st' x' hx') schema
      indent st x hx

/-! ### C9, C1 -/

/-- C9 (confirmed): schema resolution/rendering never mutates the schema
registry — for every schema node, indent, and state (registry and visited
set), the registry component of the state after `generateTypeProps` is
exactly the one before, no matter how many names are resolved along the way.
The embedding threads the registry through the same state that carries the
mutable visited set, so this is a frame property of the modelled execution,
proved by induction over the renderer. -/
theorem c9_registry_never_mutated (schema : Schema) (indent : String) (st : GenState) :
    ((generateTypeProps schema indent st).2).schemas = st.schemas :=
  goGen_schemas (MAX_DEPTH + 1) (some schema) indent st

theorem list_contains_of_mem {l : List String} {a : String} (h : a ∈ l) :
    l.contains a = true := by
  simpa using h

/-- At the cycle point — a property whose `$ref` resolves to a name already
in the visited set — `renderProp` emits the direct name reference and leaves
the state untouched (generator.ts:221-222; the missing-registry-entry branch
233 emits the same text). -/
theorem renderProp_cycle (rec : Schema → String → GenState → String × GenState)
    (indent : String) (reqNames : List String) (name : String) (prop : Schema)
    (st : GenState) (A : String) (hA : A ∈ st.refs) (hs : isSelfRefTo A prop) :
    renderProp rec indent reqNames name prop st =
      (some (directRefLine indent reqNames name prop A), st) := by
  obtain ⟨h1, h2⟩ := hs
  unfold renderProp
  dsimp only []
  rw [if_pos h1, h2]
  rcases hl : lookupSchema st A with _ | target
  · rfl
  · dsimp only []
    rw [if_pos (list_contains_of_mem hA)]
    rfl

/-- A property whose schema is well-formed (an array property has `items`)
never takes the throwing branch of `renderProp`. -/
theorem renderProp_exists (rec : Schema → String → GenState → String × GenState)
    (indent : String) (reqNames : List String) (name : String) (prop : Schema)
    (st : GenState) (hq : prop.type = some "array" → prop.items.isSome = true) :
    ∃ line st1, renderProp rec indent reqNames name prop st = (some line, st1) := by
  unfold renderProp
  dsimp only []
  repeat' split
  all_goals first
    | (exact ⟨_, _, rfl⟩)
    | (simp_all)

/-- The property fold renders every self-referential property as the direct
name reference, positionally (`Forall₂`), provided the cycle name is already
in the visited set and no property aborts the fold. -/
theorem goProps_cycle (rec : Schema → String → GenState → String × GenState)
    (hrec : ∀ s i st' x, x ∈ st'.refs → x ∈ ((rec s i st').2).refs)
    (indent : String) (reqNames : List String) (A : String) :
    ∀ (props : List (String × Schema)) (st : GenState), A ∈ st.refs →
      (∀ q ∈ props, q.2.type = some "array" → q.2.items.isSome = true) →
      ∃ lines st',
        goProps rec indent reqNames props st = (some lines, st') ∧
        List.Forall₂ (fun (q : String × Schema) line =>
          isSelfRefTo A q.2 → line = directRefLine indent reqNames q.1 q.2 A)
          props lines := by
  intro props
  induction props with
  | nil =>
    intro st _ _
    exact ⟨[], st, rfl, List.Forall₂.nil⟩
  | cons q rest ih =>
    intro st hA hwf
    obtain ⟨line, st1, hr⟩ := renderProp_exists rec indent reqNames q.1 q.2 st
      (hwf q (List.mem_cons_self _ _))
    have hA1 : A ∈ st1.refs := by
      have := renderProp_refs_mono rec hrec indent reqNames q.1 q.2 st A hA
      rw [hr] at this
      exact this
    obtain ⟨lines, st2, hg, hfa⟩ := ih st1 hA1
      (fun q' hq' => hwf q' (List.mem_cons_of_mem _ hq'))
    refine ⟨line :: lines, st2, ?_, ?_⟩
    · rw [goProps, hr]
      dsimp only []
      rw [hg]
    · refine List.Forall₂.cons ?_ hfa
      intro hself
      have hc := renderProp_cycle rec indent reqNames q.1 q.2 st A hA hself
      rw [hc] at hr
      simpa using (congrArg Prod.fst hr).symm

/-- C1 (confirmed): for every registry and every object schema `A` — with
well-formed array properties, so the fold is not aborted by the source's
caught `TypeError` — rendering `A` through `handleRecursiveType` (the entry
the collection pass uses, which seeds the visited set with `A`) terminates
(the model is a total function) and renders every property whose `$ref`
points back to `A` as the direct name reference `name<?>: A;` — not an
inlined body, not an infinite expansion, and not the depth-ceiling
fallback. -/
theorem c1_cycle_direct_reference (reg : List (String × Schema)) (A : String)
    (aSchema : Schema) (props : List (String × Schema))
    (href : aSchema.ref = none) (htype : aSchema.type = some "object")
    (hprops : aSchema.properties = some props)
    (hwf : ∀ q ∈ props, q.2.type = some "array" → q.2.items.isSome = true) :
    ∃ lines st',
      goProps (fun s i st => goGen MAX_DEPTH (some s) i st) "  "
        (aSchema.required.getD []) props ⟨some reg, [A]⟩ = (some lines, st') ∧
      handleRecursiveType A aSchema "" ⟨some reg, []⟩ =
        ("\x7b\n" ++ String.intercalate "\n" (lines.filter (· ≠ "")) ++ "\n\x7d", st') ∧
      List.Forall₂ (fun (q : String × Schema) line =>
        isSelfRefTo A q.2 →
          line = directRefLine "  " (aSchema.required.getD []) q.1 q.2 A)
        props lines := by
  obtain ⟨lines, st', hg, hfa⟩ :=
    goProps_cycle (fun s i st => goGen MAX_DEPTH (some s) i st)
      (fun s i st x hx => goGen_refs_mono MAX_DEPTH (some s) i st x hx)
      "  " (aSchema.required.getD []) A props ⟨some reg, [A]⟩ (by simp) hwf
  refine ⟨lines, st', hg, ?_, hfa⟩
  unfold handleRecursiveType
  rw [if_neg (by simp)]
  have haddref : addRef ⟨some reg, []⟩ A = ⟨some reg, [A]⟩ := by
    unfold addRef
    simp
  rw [haddref]
  unfold generateTypeProps
  show Prod.mk _ _ = _
  rw [show goGen (MAX_DEPTH + 1) (some aSchema) ("" ++ "  ") ⟨some reg, [A]⟩ =
    genStep (fun s i st' => goGen MAX_DEPTH (some s) i st') (some aSchema) ("" ++ "  ")
      ⟨some reg, [A]⟩ from rfl]
  unfold genStep
  dsimp only []
  rw [if_neg (by rw [href]; simp [strTruthy])]
  rw [if_neg (by rw [htype]; simp)]
  rw [if_pos (by rw [htype, hprops]; simp)]
  rw [hprops]
  rw [show (("" ++ "  " : String)) = "  " from rfl,
    show (some props).getD ([] : List (String × Schema)) = props from rfl]
  rw [hg]
  dsimp only []
  rw [String.append_empty, String.append_assoc]
  rfl

/-- Witness for `c1_cycle_direct_reference` on a concrete self-referential
tree-node registry. -/
theorem c1_witness :
    ∃ lines st',
      goProps (fun s i st => goGen MAX_DEPTH (some s) i st) "  "
        (nodeSchema.required.getD []) nodeProps ⟨some nodeReg, ["Node"]⟩ =
        (some lines, st') ∧
      handleRecursiveType "Node" nodeSchema "" ⟨some nodeReg, []⟩ =
        ("\x7b\n" ++ String.intercalate "\n" (lines.filter (· ≠ "")) ++ "\n\x7d", st') ∧
      List.Forall₂ (fun (q : String × Schema) line =>
        isSelfRefTo "Node" q.2 →
          line = directRefLine "  " (nodeSchema.required.getD []) q.1 q.2 "Node")
        nodeProps lines :=
  c1_cycle_direct_reference nodeReg "Node" nodeSchema nodeProps rfl rfl rfl (by decide)

/-! ### C4: the depth ceiling -/

theorem getLastD_ne_nil {α : Type} :
    ∀ (l : List α), l ≠ [] → ∀ d1 d2, l.getLastD d1 = l.getLastD d2 := by
  intro l
  induction l with
  | nil => intro h; exact absurd rfl h
  | cons a rest ih =>
    intro _ d1 d2
    match rest with
    | [] => rfl
    | b :: rest' =>
      simp only [List.getLastD_cons]

theorem splitOnChar_ne_nil {sep : Char} : ∀ cs : List Char, splitOnChar sep cs ≠ [] := by
  intro cs
  induction cs with
  | nil => simp [splitOnChar]
  | cons c rest ih =>
    rw [splitOnChar]
    split
    · simp
    · split
      · simp
      · simp

theorem splitOnChar_no_sep {sep : Char} :
    ∀ cs : List Char, ¬ sep ∈ cs → splitOnChar sep cs = [cs] := by
  intro cs
  induction cs with
  | nil => intro _; rfl
  | cons c rest ih =>
    intro h
    rw [splitOnChar]
    rw [if_neg (fun he => h (by rw [← he]; exact List.mem_cons_self _ _))]
    rw [ih (fun hm => h (List.mem_cons_of_mem _ hm))]

theorem splitOnChar_two_le {sep : Char} :
    ∀ cs : List Char, sep ∈ cs → 2 ≤ (splitOnChar sep cs).length := by
  intro cs
  induction cs with
  | nil => intro h; simp at h
  | cons c rest ih =>
    intro h
    rw [splitOnChar]
    split
    · have := @splitOnChar_ne_nil sep rest
      simp only [List.length_cons]
      have hlen : 1 ≤ (splitOnChar sep rest).length := by
        rcases hs : splitOnChar sep rest with _ | _
        · exact absurd hs this
        · simp
      omega
    · rename_i hne
      have hmem : sep ∈ rest := by
        rcases List.mem_cons.mp h with h1 | h1
        · exact absurd h1.symm hne
        · exact h1
      split
      · rename_i heq
        exact absurd heq (splitOnChar_ne_nil rest)
      · rename_i w ws heq
        have := ih hmem
        rw [heq] at this
        simpa using this

theorem splitOnChar_append_sep {sep : Char} :
    ∀ (cs ys : List Char) (d : List Char), ¬ sep ∈ ys →
      (splitOnChar sep (cs ++ sep :: ys)).getLastD d = ys := by
  intro cs
  induction cs with
  | nil =>
    intro ys d hys
    simp only [List.nil_append]
    rw [splitOnChar, if_pos rfl, splitOnChar_no_sep ys hys]
    rfl
  | cons c rest ih =>
    intro ys d hys
    simp only [List.cons_append]
    rw [splitOnChar]
    split
    · rw [List.getLastD_cons]
      exact ih ys [] hys
    · split
      · rename_i heq
        exact absurd heq (splitOnChar_ne_nil _)
      · rename_i w ws heq
        have hmem : sep ∈ rest ++ sep :: ys :=
          List.mem_append.mpr (Or.inr (List.mem_cons_self _ _))
        have h2 := splitOnChar_two_le (rest ++ sep :: ys) hmem
        rw [heq] at h2
        have hws : ws ≠ [] := by
          intro he
          rw [he] at h2
          simp at h2
        rw [List.getLastD_cons]
        have h3 := ih ys d hys
        rw [heq, List.getLastD_cons] at h3
        rw [getLastD_ne_nil ws hws (c :: w) w]
        exact h3

theorem getLastD_map {α β : Type} (f : α → β) :
    ∀ (l : List α) (d : α), (l.map f).getLastD (f d) = f (l.getLastD d) := by
  intro l
  induction l with
  | nil => intro d; rfl
  | cons a rest ih =>
    intro d
    simp only [List.map_cons, List.getLastD_cons]
    exact ih a

theorem lastSeg_schema_ptr (n : String) (hslash : ¬ '/' ∈ n.toList) :
    lastSeg ("#/components/schemas/" ++ n) = n := by
  unfold lastSeg jsSplit
  have h1 : ("#/components/schemas/" ++ n).toList =
      "#/components/schemas".toList ++ '/' :: n.toList := by
    rw [strToList_append]
    rfl
  rw [h1]
  have h2 : ("" : String) = String.mk ([] : List Char) := rfl
  rw [h2, getLastD_map String.mk _ []]
  rw [splitOnChar_append_sep "#/components/schemas".toList n.toList [] hslash]
  rfl

theorem strTruthy_append_ptr (n : String) :
    strTruthy (some ("#/components/schemas/" ++ n)) = true := by
  have hne : ("#/components/schemas/" ++ n) ≠ "" := by
    intro h
    have h2 : ("#/components/schemas/" ++ n).toList = [] := by rw [h]; rfl
    rw [strToList_append] at h2
    simp [String.toList] at h2
  simpa [strTruthy] using hne

/-- The chain induction: starting at budget `b` with chain index `i`
(`i + b = MAX_DEPTH + 1`), a pure `$ref` chain of fresh names exhausts the
budget and yields the depth fallback. -/
theorem goGen_chain (reg : List (String × Schema)) (names : Nat → String)
    (indent : String)
    (hinj : ∀ i j, i ≤ 11 → j ≤ 11 → names i = names j → i = j)
    (hn : ∀ i, i ≤ 11 → ¬ '/' ∈ (names i).toList)
    (hchain : ∀ i, i < 11 → jsLookup reg (names i) =
      some (refOnlySchema ("#/components/schemas/" ++ names (i + 1)))) :
    ∀ (b i : Nat) (st : GenState), i + b = 11 → st.schemas = some reg →
      (∀ j, i ≤ j → j ≤ 11 → ¬ names j ∈ st.refs) →
      (goGen b (some (refOnlySchema ("#/components/schemas/" ++ names i))) indent st).1 =
        indent ++ "any // Max depth reached" := by
  intro b
  induction b with
  | zero => intro i st _ _ _; rfl
  | succ b ih =>
    intro i st hib hschemas hrefs
    have hi11 : i ≤ 11 := by omega
    have hi10 : i < 11 := by omega
    rw [goGen]
    unfold genStep
    dsimp only []
    rw [show (refOnlySchema ("#/components/schemas/" ++ names i)).ref =
      some ("#/components/schemas/" ++ names i) from rfl]
    rw [if_pos (strTruthy_append_ptr (names i))]
    rw [show (some ("#/components/schemas/" ++ names i)).getD "" =
      "#/components/schemas/" ++ names i from rfl]
    rw [lastSeg_schema_ptr (names i) (hn i hi11)]
    rw [if_neg (by
      intro hc
      exact hrefs i (le_refl i) hi11 (by simpa using hc))]
    have hlook : lookupSchema st (names i) =
        some (refOnlySchema ("#/components/schemas/" ++ names (i + 1))) := by
      unfold lookupSchema
      rw [hschemas]
      exact hchain i hi10
    rw [hlook]
    exact ih (i + 1) (addRef st (names i)) (by omega)
      (by rw [addRef_schemas]; exact hschemas)
      (by
        intro j hj1 hj2 hmem
        rcases mem_addRef.mp hmem with hm | hm
        · exact hrefs j (by omega) hj2 hm
        · have := hinj j i hj2 hi11 hm
          omega)

/-- C4 (confirmed): a pure `$ref` chain of twelve distinct names exceeds the
fixed recursion ceiling (`MAX_DEPTH = 10`); `generateTypeProps` returns the
explicit `any // Max depth reached` fallback — it neither raises (the model
is a total function; no exception value is produced on this path) nor loops
forever, and nothing is silently truncated: the fallback text is emitted at
the cut point. -/
theorem c4_depth_ceiling_fallback (reg : List (String × Schema)) (names : Nat → String)
    (indent : String)
    (hinj : ∀ i j, i ≤ 11 → j ≤ 11 → names i = names j → i = j)
    (hn : ∀ i, i ≤ 11 → ¬ '/' ∈ (names i).toList)
    (hchain : ∀ i, i < 11 → jsLookup reg (names i) =
      some (refOnlySchema ("#/components/schemas/" ++ names (i + 1)))) :
    (generateTypeProps (refOnlySchema ("#/components/schemas/" ++ names 0)) indent
      ⟨some reg, []⟩).1 = indent ++ "any // Max depth reached" := by
  unfold generateTypeProps
  exact goGen_chain reg names indent hinj hn hchain (MAX_DEPTH + 1) 0 ⟨some reg, []⟩
    (by norm_num [MAX_DEPTH]) rfl (by intro j _ _ h; simp at h)

/-- Witness for `c4_depth_ceiling_fallback` on the concrete chain
`T0 → T1 → ... → T11`. -/
theorem c4_witness :
    (generateTypeProps (refOnlySchema ("#/components/schemas/" ++ chainName 0)) "  "
      ⟨some chainReg, []⟩).1 = "  " ++ "any // Max depth reached" :=
  c4_depth_ceiling_fallback chainReg chainName "  "
    (by intro i j hi hj; interval_cases i <;> interval_cases j <;> decide)
    (by decide)
    (by intro i hi; interval_cases i <;> rfl)

/-! ### C10: `resolveSchema` termination -/

theorem jsLookup_mem {α : Type} {l : List (String × α)} {k : String} {v : α}
    (h : jsLookup l k = some v) : k ∈ l.map Prod.fst := by
  unfold jsLookup at h
  rcases hf : l.find? (fun p => p.1 = k) with _ | p
  · rw [hf] at h
    simp at h
  · have hmem := List.mem_of_find?_eq_some hf
    have hpred := List.find?_some hf
    simp only [decide_eq_true_eq] at hpred
    rw [← hpred]
    exact List.mem_map_of_mem Prod.fst hmem

theorem length_filter_le {α : Type} (p q : α → Bool) :
    ∀ l : List α, (∀ x ∈ l, q x = true → p x = true) →
      (l.filter q).length ≤ (l.filter p).length := by
  intro l
  induction l with
  | nil => intro _; simp
  | cons x rest ih =>
    intro h
    have hrest := ih (fun y hy => h y (List.mem_cons_of_mem _ hy))
    rcases hq : q x with _ | _
    · rcases hp : p x with _ | _
      · simpa [List.filter, hq, hp] using hrest
      · simp only [List.filter, hq, hp]
        simp only [List.length_cons]
        omega
    · have hp := h x (List.mem_cons_self _ _) hq
      simp only [List.filter, hq, hp]
      simpa using hrest

theorem length_filter_lt {α : Type} [DecidableEq α] (p q : α → Bool) :
    ∀ (l : List α), (∀ x ∈ l, q x = true → p x = true) →
      ∀ a, a ∈ l → p a = true → q a = false →
        (l.filter q).length < (l.filter p).length := by
  intro l
  induction l with
  | nil => intro _ a ha; simp at ha
  | cons x rest ih =>
    intro h a ha hpa hqa
    by_cases hxa : x = a
    · subst hxa
      simp only [List.filter, hqa, hpa]
      have := length_filter_le p q rest (fun y hy => h y (List.mem_cons_of_mem _ hy))
      simp only [List.length_cons]
      omega
    · have ha' : a ∈ rest := by
        rcases List.mem_cons.mp ha with h1 | h1
        · exact absurd h1.symm hxa
        · exact h1
      have hrest := ih (fun y hy => h y (List.mem_cons_of_mem _ hy)) a ha' hpa hqa
      rcases hq : q x with _ | _
      · rcases hp : p x with _ | _
        · simpa [List.filter, hq, hp] using hrest
        · simp only [List.filter, hq, hp]
          simp only [List.length_cons]
          omega
      · have hp := h x (List.mem_cons_self _ _) hq
        simp only [List.filter, hq, hp]
        simpa using hrest

theorem contains_true_iff (l : List String) (x : String) :
    l.contains x = true ↔ x ∈ l := by
  simp

theorem distinctRemaining_lt {reg : List (String × Schema)} {seen : List String}
    {a : String} (ha : a ∈ reg.map Prod.fst) (hseen : seen.contains a = false) :
    distinctRemaining (some reg) (seen ++ [a]) < distinctRemaining (some reg) seen := by
  unfold distinctRemaining
  refine length_filter_lt _ _ _ ?_ a (List.mem_dedup.mpr ha) ?_ ?_
  · intro x _ hx
    simp only [Bool.not_eq_true'] at hx ⊢
    cases hc : seen.contains x with
    | false => rfl
    | true =>
      exfalso
      have hmem : x ∈ seen := (contains_true_iff _ _).mp hc
      have h2 : (seen ++ [a]).contains x = true :=
        (contains_true_iff _ _).mpr (List.mem_append_left _ hmem)
      rw [hx] at h2
      simp at h2
  · simp only [Bool.not_eq_true']
    exact hseen
  · have h2 : (seen ++ [a]).contains a = true :=
      (contains_true_iff _ _).mpr (by simp)
    simp [h2]

theorem resolveSchemaFuel_irrel :
    ∀ (g1 g2 : Nat) (schema : Option Schema)
      (schemas : Option (List (String × Schema))) (seen : List String),
      distinctRemaining schemas seen < g1 → distinctRemaining schemas seen < g2 →
      resolveSchemaFuel g1 schema schemas seen = resolveSchemaFuel g2 schema schemas seen := by
  intro g1
  induction g1 with
  | zero => intro g2 _ _ seen h1 _; omega
  | succ n ih =>
    intro g2 schema schemas seen h1 h2
    match g2 with
    | 0 => omega
    | m + 1 =>
      simp only [resolveSchemaFuel]
      cases schema with
      | none => rfl
      | some s =>
        dsimp only []
        rcases href : s.ref with _ | r
        · rfl
        · rcases hsch : schemas with _ | reg
          · rfl
          · dsimp only []
            rcases hcond : (decide (lastSeg r = "") || seen.contains (lastSeg r)) with _ | _
            · have hcneg : ¬((false : Bool) = true) := by decide
              simp only [if_neg hcneg]
              rcases hlook : jsLookup reg (lastSeg r) with _ | refSchema
              · rfl
              · dsimp only []
                have hmem := jsLookup_mem hlook
                have hcontains : seen.contains (lastSeg r) = false := by
                  rcases Bool.or_eq_false_iff.mp hcond with ⟨_, hc⟩
                  exact hc
                have hlt := distinctRemaining_lt hmem hcontains
                rw [hsch] at h1 h2
                rw [ih m (some refSchema) (some reg) (seen ++ [lastSeg r])
                  (by omega) (by omega)]
            · rfl

/-- C10: the client generator's `resolveSchema` helper terminates on every
input, including registries with cyclic or mutually recursive `$ref` chains:
each reference name is entered at most once (a name already in the seen set,
a name missing from the registry, or a non-ref node returns the node as-is
immediately), so any fuel exceeding the number of distinct unseen registry
names yields the same result as `resolveSchema` — the recursion depth is
bounded by the number of distinct schema names. -/
theorem c10_resolveSchema_terminates (g : Nat) (schema : Option Schema)
    (schemas : Option (List (String × Schema))) (seen : List String)
    (h : distinctRemaining schemas seen < g) :
    resolveSchemaFuel g schema schemas seen = resolveSchema schema schemas seen :=
  resolveSchemaFuel_irrel g (distinctRemaining schemas seen + 1) schema schemas seen h
    (Nat.lt_succ_self _)

/-- On the two-name cyclic registry `A → B → A` the distinct-name bound is
below `5`, and fuel `5` computes the same resolution as `resolveSchema`. -/
theorem c10_witness :
    distinctRemaining (some cycReg) [] < 5 ∧
    resolveSchemaFuel 5 (some (refOnlySchema "#/components/schemas/A"))
        (some cycReg) [] =
      resolveSchema (some (refOnlySchema "#/components/schemas/A")) (some cycReg) [] :=
  ⟨by decide, c10_resolveSchema_terminates 5 _ _ _ (by decide)⟩

theorem insertByRank_eq_orderedInsert (x : String × ResponseObject)
    (l : List (String × ResponseObject)) :
    insertByRank x l =
      List.orderedInsert (fun a b => sortByStatus a.1 ≤ sortByStatus b.1) x l := by
  induction l with
  | nil => rfl
  | cons y ys ih =>
    rw [insertByRank, List.orderedInsert, ih]

theorem sortCandidates_eq_insertionSort (l : List (String × ResponseObject)) :
    sortCandidates l =
      List.insertionSort (fun a b => sortByStatus a.1 ≤ sortByStatus b.1) l := by
  induction l with
  | nil => rfl
  | cons c cs ih =>
    rw [sortCandidates, List.insertionSort, ih, insertByRank_eq_orderedInsert]

theorem sortCandidates_perm (l : List (String × ResponseObject)) :
    (sortCandidates l).Perm l := by
  rw [sortCandidates_eq_insertionSort]
  exact List.perm_insertionSort _ _

theorem sortCandidates_sorted (l : List (String × ResponseObject)) :
    (sortCandidates l).Pairwise (fun a b => sortByStatus a.1 ≤ sortByStatus b.1) := by
  rw [sortCandidates_eq_insertionSort]
  haveI : IsTotal (String × ResponseObject)
      (fun a b => sortByStatus a.1 ≤ sortByStatus b.1) :=
    ⟨fun a b => Nat.le_total _ _⟩
  haveI : IsTrans (String × ResponseObject)
      (fun a b => sortByStatus a.1 ≤ sortByStatus b.1) :=
    ⟨fun _ _ _ hab hbc => Nat.le_trans hab hbc⟩
  exact List.sorted_insertionSort _ _

theorem sortByStatus_numeric_le {s : String} (h : is2xxNumeric s = true) :
    200 ≤ sortByStatus s ∧ sortByStatus s ≤ 299 := by
  rcases hl : s.toList with _ | ⟨a, _ | ⟨b, _ | ⟨c, _ | ⟨d, rest⟩⟩⟩⟩ <;>
    simp only [is2xxNumeric, hl] at h <;>
    try exact absurd h (by decide)
  obtain ⟨⟨ha, hb⟩, hc⟩ : (a = '2' ∧ isAsciiDigit b = true) ∧ isAsciiDigit c = true := by
    simpa [Bool.and_eq_true] using h
  subst ha
  have hbn := isAsciiDigit_iff.mp hb
  have hcn := isAsciiDigit_iff.mp hc
  have hlen3 : (jsToUpper s).toList.length = 3 := by
    rw [jsToUpper, mk_toList, hl]; simp
  have hneD : ¬ jsToUpper s = "DEFAULT" := by
    intro he; rw [he] at hlen3; exact absurd hlen3 (by decide)
  have hupb : jsToUpperChar b = b := by
    unfold jsToUpperChar; rw [if_neg (by omega)]
  have hne2 : ¬ jsToUpper s = "2XX" := by
    intro he
    have he2 : ((jsToUpper s).toList.getD 1 ' ') = ("2XX".toList.getD 1 ' ') := by rw [he]
    have hx : ("2XX".toList.getD 1 ' ') = 'X' := by decide
    rw [jsToUpper, mk_toList, hl, hx] at he2
    simp only [List.map, List.getD, List.get?_cons_succ, List.get?_cons_zero,
      List.getElem?_cons_succ, List.getElem?_cons_zero, Option.getD_some, hupb] at he2
    rw [he2] at hbn
    exact absurd hbn (by decide)
  have hparse : jsParseIntNat s = some (natOfDigits ['2', b, c]) := by
    rw [jsParseIntNat, hl]
    have ht : List.takeWhile isAsciiDigit ('2' :: b :: c :: []) = ['2', b, c] := by
      rw [List.takeWhile_cons_of_pos (by decide), List.takeWhile_cons_of_pos hb,
        List.takeWhile_cons_of_pos hc, List.takeWhile_nil]
    rw [ht]
  have hval : natOfDigits ['2', b, c] = (2 * 10 + (b.toNat - 48)) * 10 + (c.toNat - 48) := by
    simp [natOfDigits, List.foldl]
  rw [sortByStatus, if_neg hneD, if_neg hne2, hparse, hval]
  dsimp only []
  omega

theorem sortByStatus_2XX : sortByStatus "2XX" = MAX_SAFE_INTEGER - 2 := by decide

theorem sortByStatus_default : sortByStatus "default" = MAX_SAFE_INTEGER - 1 := by decide

theorem findPreferred_mem {content : List (String × MediaTypeObject)}
    {sc : Schema} {ct : String} (h : findPreferred content = some (sc, ct)) :
    ct ∈ preferredContentTypes := by
  rw [findPreferred] at h
  obtain ⟨a, ha, hfa⟩ := List.exists_of_findSome?_eq_some h
  obtain ⟨sc', _, heq⟩ := Option.map_eq_some'.mp hfa
  cases heq
  exact ha

theorem firstPick_preferred {q : String × ResponseObject}
    {rest : List (String × ResponseObject)}
    {content : List (String × MediaTypeObject)} {sc : Schema} {ct : String}
    (h1 : q.2.content = some content) (h2 : findPreferred content = some (sc, ct)) :
    firstPick (q :: rest) = some (sc, q.1, ct) := by
  rw [firstPick, h1]
  dsimp only []
  rw [h2]

/-- C3 counterexample: an operation declaring both a `default` response and a
`2XX` wildcard response, each carrying an `application/json` schema.  The code
ranks `2XX` (`MAX_SAFE_INTEGER - 2`) strictly before `DEFAULT`
(`MAX_SAFE_INTEGER - 1`), so selection returns the `2XX` response — the claim
states `default` is preferred over the `2XX` wildcard, which this refutes. -/
theorem c3_counterexample :
    getSuccessfulResponseSchema c3op =
      some (typeOnlySchema "number", "2XX", "application/json") ∧
    ("default", c3respDefault) ∈ c3op.responses.getD [] ∧
    findPreferred (c3respDefault.content.getD []) =
      some (typeOnlySchema "string", "application/json") ∧
    sortByStatus "2XX" < sortByStatus "default" :=
  ⟨rfl, List.mem_cons_self _ _, rfl, by decide⟩

/-- C3 (corrected): response-schema selection sorts the `2xx`/`default`/`2XX`
candidates by a numeric rank and picks the first usable one, but the rank
order is: numeric `2xx` statuses first (rank = their value, between 200 and
299), then the `2XX` wildcard (`MAX_SAFE_INTEGER - 2`), then `default`
(`MAX_SAFE_INTEGER - 1`) — i.e. `2XX` precedes `default`, not the other way
around as claimed.  The sort is a permutation of the declared candidates,
sorted by that rank; within the chosen response, `application/json`-compatible
content types are tried in the fixed preference order first, and any content
type returned from the preferred pass is a member of that list. -/
theorem c3_selection_order :
    (∀ s, is2xxNumeric s = true →
      200 ≤ sortByStatus s ∧ sortByStatus s ≤ 299 ∧ sortByStatus s < sortByStatus "2XX") ∧
    sortByStatus "2XX" < sortByStatus "default" ∧
    (∀ l : List (String × ResponseObject),
      (sortCandidates l).Perm l ∧
      (sortCandidates l).Pairwise (fun a b => sortByStatus a.1 ≤ sortByStatus b.1)) ∧
    (∀ (content : List (String × MediaTypeObject)) (sc : Schema) (ct : String),
      findPreferred content = some (sc, ct) → ct ∈ preferredContentTypes) ∧
    (∀ (q : String × ResponseObject) (rest : List (String × ResponseObject))
        (content : List (String × MediaTypeObject)) (sc : Schema) (ct : String),
      q.2.content = some content → findPreferred content = some (sc, ct) →
      firstPick (q :: rest) = some (sc, q.1, ct)) ∧
    (∀ (op : OperationObject) (rs : List (String × ResponseObject)),
      op.responses = some rs →
      getSuccessfulResponseSchema op =
        firstPick (sortCandidates (rs.filter (fun q => isResponseCandidate q.1)))) := by
  refine ⟨?_, by decide, ?_, ?_, ?_, ?_⟩
  · intro s h
    obtain ⟨h1, h2⟩ := sortByStatus_numeric_le h
    refine ⟨h1, h2, ?_⟩
    rw [sortByStatus_2XX]
    have : (299 : Nat) < MAX_SAFE_INTEGER - 2 := by decide
    omega
  · intro l
    exact ⟨sortCandidates_perm l, sortCandidates_sorted l⟩
  · intro content sc ct h
    exact findPreferred_mem h
  · intro q rest content sc ct h1 h2
    exact firstPick_preferred h1 h2
  · intro op rs h
    rw [getSuccessfulResponseSchema, h]

/-- Instantiation of the corrected selection order at the concrete operation
`c3op`: `"200"` is a numeric 2xx status and ranks strictly before `"2XX"`. -/
theorem c3_witness :
    is2xxNumeric "200" = true ∧
    200 ≤ sortByStatus "200" ∧ sortByStatus "200" ≤ 299 ∧
    sortByStatus "200" < sortByStatus "2XX" :=
  ⟨by decide, c3_selection_order.1 "200" (by decide)⟩

/-- C5 counterexample: a POST operation declaring `multipart/form-data` (and
`application/json`) request content *and* one query parameter.  `getContentType`
alone would pick multipart, but the query-parameter override of
serviceGenerator.ts:259-263 runs *after* it and unconditionally forces
`application/x-www-form-urlencoded` for POST/PUT/PATCH — so the declared
multipart does not take priority, contradicting the claimed precedence order
(multipart first, url-encoded forced only alongside a JSON body). -/
theorem c5_counterexample :
    getContentType c5op = "multipart/form-data" ∧
    serviceContentType "post" c5op = "application/x-www-form-urlencoded" :=
  ⟨rfl, rfl⟩

/-- C5 (corrected): the body-shaping content type is computed by
`getContentType` (multipart if declared, else url-encoded if declared, else
`application/json`), and then a POST/PUT/PATCH operation with at least one
query parameter is overridden to `application/x-www-form-urlencoded`
regardless of what was declared — the override outranks even a declared
`multipart/form-data`.  Without query parameters the declared precedence
holds, so multipart + JSON compiles to multipart. -/
theorem c5_content_type :
    (∀ (method : String) (op : OperationObject),
      ["POST", "PUT", "PATCH"].contains (jsToUpper method) = true →
      (queryParamsOf op).length ≠ 0 →
      serviceContentType method op = "application/x-www-form-urlencoded") ∧
    (∀ (method : String) (op : OperationObject),
      ¬ (["POST", "PUT", "PATCH"].contains (jsToUpper method) = true ∧
          (queryParamsOf op).length ≠ 0) →
      serviceContentType method op = getContentType op) ∧
    (∀ (op : OperationObject) (content : List (String × MediaTypeObject)),
      op.requestBody.bind RequestBodyObject.content = some content →
      ((jsLookup content "multipart/form-data").isSome = true →
        getContentType op = "multipart/form-data") ∧
      ((jsLookup content "multipart/form-data").isSome = false →
        (jsLookup content "application/x-www-form-urlencoded").isSome = true →
        getContentType op = "application/x-www-form-urlencoded") ∧
      ((jsLookup content "multipart/form-data").isSome = false →
        (jsLookup content "application/x-www-form-urlencoded").isSome = false →
        getContentType op = "application/json")) ∧
    (∀ op : OperationObject,
      op.requestBody.bind RequestBodyObject.content = none →
      getContentType op = "application/json") := by
  refine ⟨?_, ?_, ?_, ?_⟩
  · intro method op h1 h2
    rw [serviceContentType]
    rw [if_pos ⟨h1, h2⟩]
  · intro method op h
    rw [serviceContentType]
    rw [if_neg h]
  · intro op content h
    refine ⟨?_, ?_, ?_⟩
    · intro hm
      rw [getContentType, h]
      dsimp only []
      rw [if_pos hm]
    · intro hm hu
      rw [getContentType, h]
      dsimp only []
      rw [if_neg (by rw [hm]; exact Bool.false_ne_true), if_pos hu]
    · intro hm hu
      rw [getContentType, h]
      dsimp only []
      rw [if_neg (by rw [hm]; exact Bool.false_ne_true),
        if_neg (by rw [hu]; exact Bool.false_ne_true)]
  · intro op h
    rw [getContentType, h]

/-- Instantiation of the corrected content-type rules at concrete operations:
the POST + query-parameter override forces url-encoded on `c5op` (which
declares multipart), and without query parameters the multipart + JSON
operation `c5opMultipartJson` compiles to multipart. -/
theorem c5_witness :
    serviceContentType "post" c5op = "application/x-www-form-urlencoded" ∧
    getContentType c5opMultipartJson = "multipart/form-data" :=
  ⟨c5_content_type.1 "post" c5op (by decide) (by decide),
   (c5_content_type.2.2.1 c5opMultipartJson _ rfl).1 (by decide)⟩

/-- C6 counterexample: the operation `c6op` has path parameter `id` and a JSON
body with a property also named `id`.  The generated Request interface merges
the parameter lines and the body lines with no exclusion, so the line
`  id: number;` occurs twice — a duplicate `id` field.  And for the multipart
operation `c6opMulti` with the same path parameter, the generated data payload
is `buildFormData(params)` with no `omitParams`, so the path parameter is not
excluded from the body payload for multipart content. -/
theorem c6_counterexample :
    (splitOnChar (Char.ofNat 10) c6RequestText.toList).count "  id: number;".toList = 2 ∧
    serviceRequestConfig "/pets/\x7bid\x7d" "post" c6opMulti (some []) =
      (["    url: `/pets/$\x7bparams.id\x7d`", "    data: buildFormData(params)",
        "    config"], ["buildFormData"]) :=
  ⟨rfl, rfl⟩

/-- C6 (corrected): path parameters are excluded from the request payload only
in the JSON branch — a non-GET/DELETE operation whose effective content type is
JSON, whose (resolved) JSON body schema is object-like, and which has path
parameters gets `data: omitParams(params, [...path names])`; but a multipart or
url-encoded operation always sends the whole `params` object
(`buildFormData(params)` / `buildUrlEncoded(params)`) with no path-parameter
exclusion; and the generated Request interface concatenates the parameter
fields and the body fields verbatim, so a name declared in both appears
twice. -/
theorem c6_body_partition :
    (∀ (path method : String) (op : OperationObject)
        (schemas : Option (List (String × Schema))),
      jsToUpper method ≠ "GET" → jsToUpper method ≠ "DELETE" →
      serviceContentType method op ≠ "multipart/form-data" →
      serviceContentType method op ≠ "application/x-www-form-urlencoded" →
      (schemaForBodyOf op schemas).isSome = true →
      isObjectLikeSchema (schemaForBodyOf op schemas) = true →
      (pathParamsOf op).length ≠ 0 →
      serviceRequestConfig path method op schemas =
        (["    url: `" ++ urlTemplateOf path (pathParamsOf op) ++ "`",
          "    data: omitParams(params, [" ++ omitListStr (pathParamsOf op) ++ "])",
          "    config"], ["omitParams"])) ∧
    (∀ (path method : String) (op : OperationObject)
        (schemas : Option (List (String × Schema))),
      jsToUpper method ≠ "GET" → jsToUpper method ≠ "DELETE" →
      serviceContentType method op = "multipart/form-data" →
      serviceRequestConfig path method op schemas =
        (["    url: `" ++ urlTemplateOf path (pathParamsOf op) ++ "`",
          "    data: buildFormData(params)", "    config"], ["buildFormData"])) ∧
    (∀ (path method : String) (op : OperationObject)
        (schemas : Option (List (String × Schema))),
      jsToUpper method ≠ "GET" → jsToUpper method ≠ "DELETE" →
      serviceContentType method op = "application/x-www-form-urlencoded" →
      serviceRequestConfig path method op schemas =
        (["    url: `" ++ urlTemplateOf path (pathParamsOf op) ++ "`",
          "    data: buildUrlEncoded(params)", "    config"], ["buildUrlEncoded"])) ∧
    (∀ (path method : String) (op : OperationObject)
        (schemas : Option (List (String × Schema))) (pfx ut rbProps : String),
      (op.parameters.getD []).length ≠ 0 →
      generateRequestBodyType op schemas = some ("interface", rbProps) →
      parameterPropsOf op ≠ "" → rbProps ≠ "" →
      requestBlockOf path method op schemas pfx ut =
        some (opDocHeader "请求类型" path
            (jsOrStr (op.tags.bind (fun l => l.head?)) "Uncategorized") method ut
            op.summary ++
          "export interface " ++ (formatTypeName path method pfx ++ "Request") ++
          " \x7b\n" ++ (parameterPropsOf op ++ ("\n\n" ++ rbProps)) ++
          "\n\x7d\n\n")) := by
  refine ⟨?_, ?_, ?_, ?_⟩
  · intro path method op schemas hG hD hM hU hS hO hP
    rw [serviceRequestConfig]
    dsimp only []
    rw [if_neg (by simp [hG, hD])]
    rw [if_neg hM, if_neg hU]
    rw [show (match resolveSchema ((op.requestBody.bind RequestBodyObject.content).bind
        (fun c => (jsLookup c "application/json").bind MediaTypeObject.schema))
        schemas [] with
      | none => (op.requestBody.bind RequestBodyObject.content).bind
          (fun c => (jsLookup c "application/json").bind MediaTypeObject.schema)
      | some s => some s) = schemaForBodyOf op schemas from rfl]
    rw [if_pos ⟨hS, hP⟩, if_pos hO]
  · intro path method op schemas hG hD hM
    rw [serviceRequestConfig]
    dsimp only []
    rw [if_neg (by simp [hG, hD])]
    rw [if_pos hM]
  · intro path method op schemas hG hD hU
    have hM : serviceContentType method op ≠ "multipart/form-data" := by
      rw [hU]; decide
    rw [serviceRequestConfig]
    dsimp only []
    rw [if_neg (by simp [hG, hD])]
    rw [if_neg hM, if_pos hU]
  · intro path method op schemas pfx ut rbProps hp hgen hpp hrb
    rw [requestBlockOf]
    dsimp only []
    rw [if_pos (by simp [hp])]
    rw [hgen]
    dsimp only []
    rw [if_neg (by simp), if_neg (by simp)]
    rw [if_pos ⟨hrb, rfl⟩, if_pos hpp]

/-- Instantiation of the partition rules at the concrete operations: the JSON
operation `c6op` (path parameter `id`, object-like body) gets
`omitParams(params, ["id"])`, and the multipart operation `c6opMulti` with the
same path parameter sends `buildFormData(params)` unfiltered. -/
theorem c6_witness :
    serviceRequestConfig "/pets/\x7bid\x7d" "put" c6op (some []) =
      (["    url: `/pets/$\x7bparams.id\x7d`",
        "    data: omitParams(params, [\"id\"])", "    config"], ["omitParams"]) ∧
    serviceRequestConfig "/pets/\x7bid\x7d" "post" c6opMulti (some []) =
      (["    url: `/pets/$\x7bparams.id\x7d`", "    data: buildFormData(params)",
        "    config"], ["buildFormData"]) :=
  ⟨c6_body_partition.1 "/pets/\x7bid\x7d" "put" c6op (some [])
      (by decide) (by decide) (by decide) (by decide) (by decide) (by decide) (by decide),
    c6_body_partition.2.1 "/pets/\x7bid\x7d" "post" c6opMulti (some [])
      (by decide) (by decide) (by decide)⟩

theorem foldl_join_acc (u : String) :
    ∀ (cs : List String) (a b : String),
      cs.foldl (fun p q => p ++ (u ++ q)) (a ++ b) =
        a ++ cs.foldl (fun p q => p ++ (u ++ q)) b := by
  intro cs
  induction cs with
  | nil => intro a b; rfl
  | cons c cs ih =>
    intro a b
    rw [List.foldl_cons, List.foldl_cons, String.append_assoc, ih]

theorem joinWith_cons_cons (u x c : String) (cs : List String) :
    joinWith u (x :: c :: cs) = x ++ (u ++ joinWith u (c :: cs)) := by
  show (c :: cs).foldl (fun p q => p ++ (u ++ q)) x = _
  rw [List.foldl_cons, foldl_join_acc u cs x (u ++ c), foldl_join_acc u cs u c]
  rfl

theorem joinWith_spliceCat (u : String) :
    ∀ xs ys : List String,
      joinWith u (spliceCat xs ys) = joinWith u xs ++ joinWith u ys := by
  intro xs
  induction xs with
  | nil =>
    intro ys
    show joinWith u ys = joinWith u [] ++ joinWith u ys
    rfl
  | cons x xs ih =>
    intro ys
    cases xs with
    | nil =>
      cases ys with
      | nil => exact (String.append_empty x).symm
      | cons y ys2 =>
        show joinWith u ((x ++ y) :: ys2) = x ++ joinWith u (y :: ys2)
        cases ys2 with
        | nil => rfl
        | cons z zs =>
          rw [joinWith_cons_cons u (x ++ y) z zs, joinWith_cons_cons u y z zs,
            String.append_assoc]
    | cons x2 xs2 =>
      show joinWith u (x :: spliceCat (x2 :: xs2) ys) =
        joinWith u (x :: x2 :: xs2) ++ joinWith u ys
      have hne : ∃ c cs, spliceCat (x2 :: xs2) ys = c :: cs := by
        cases ys with
        | nil =>
          cases xs2 with
          | nil => exact ⟨x2, [], rfl⟩
          | cons a b => exact ⟨x2, spliceCat (a :: b) [], rfl⟩
        | cons y ys2 =>
          cases xs2 with
          | nil => exact ⟨x2 ++ y, ys2, rfl⟩
          | cons a b => exact ⟨x2, spliceCat (a :: b) (y :: ys2), rfl⟩
      obtain ⟨c, cs, hcc⟩ := hne
      rw [hcc, joinWith_cons_cons, ← hcc, ih ys, joinWith_cons_cons u x x2 xs2,
        String.append_assoc, ← String.append_assoc u]

theorem opDocHeader_splice (kind path tag method u : String) (summary : Option String) :
    opDocHeader kind path tag method u summary =
      joinWith u [opDocHeaderPre kind path tag method summary, opDocHeaderSuf] := by
  have h : joinWith u [opDocHeaderPre kind path tag method summary, opDocHeaderSuf] =
      opDocHeaderPre kind path tag method summary ++ (u ++ opDocHeaderSuf) := rfl
  rw [h, opDocHeader, opDocHeaderPre, opDocHeaderSuf]
  simp [String.append_assoc]

theorem requestBlockOf_factor (path method : String) (op : OperationObject)
    (schemas : Option (List (String × Schema))) (pfx u : String) :
    requestBlockOf path method op schemas pfx u =
      (requestBlockRest path method op schemas pfx).map
        (fun R => opDocHeader "请求类型" path (tagOf op) method u op.summary ++ R) := by
  rw [requestBlockOf, requestBlockRest, tagOf]
  dsimp only []
  split
  · rcases hg : generateRequestBodyType op schemas with _ | p
    · rfl
    · obtain ⟨rbType, rbProps⟩ := p
      dsimp only []
      repeat' split
      all_goals simp [String.append_assoc]
  · simp [String.append_assoc]

theorem responseBlockOf_factor (path method : String) (op : OperationObject)
    (schemas : Option (List (String × Schema))) (pfx u : String) :
    responseBlockOf path method op schemas pfx u =
      opDocHeader "返回类型" path (tagOf op) method u op.summary ++
        responseBlockRest path method op schemas pfx := by
  rw [responseBlockOf, responseBlockRest, tagOf]
  dsimp only []
  rcases h : getSuccessfulResponseSchema op with _ | p
  · simp [String.append_assoc]
  · obtain ⟨sc, st, ct⟩ := p
    dsimp only []
    simp [String.append_assoc]

theorem opBlocksOf_splice (path method : String) (op : OperationObject)
    (schemas : Option (List (String × Schema))) (pfx : String) :
    (∀ u, opBlocksOf path method op schemas pfx u = none) ∨
    (∃ chunks, ∀ u, opBlocksOf path method op schemas pfx u =
      some (joinWith u chunks)) := by
  rcases hR : requestBlockRest path method op schemas pfx with _ | R
  · left
    intro u
    rw [opBlocksOf, requestBlockOf_factor, hR]
    rfl
  · right
    refine ⟨spliceCat
        (spliceCat [opDocHeaderPre "请求类型" path (tagOf op) method op.summary,
          opDocHeaderSuf] [R])
        (spliceCat [opDocHeaderPre "返回类型" path (tagOf op) method op.summary,
          opDocHeaderSuf] [responseBlockRest path method op schemas pfx]), ?_⟩
    intro u
    rw [opBlocksOf, requestBlockOf_factor, hR]
    dsimp only [Option.map]
    rw [responseBlockOf_factor]
    rw [joinWith_spliceCat, joinWith_spliceCat, joinWith_spliceCat]
    rw [show joinWith u [R] = R from rfl,
      show joinWith u [responseBlockRest path method op schemas pfx] =
        responseBlockRest path method op schemas pfx from rfl]
    rw [← opDocHeader_splice, ← opDocHeader_splice]

theorem foldBlocks_splice (schemas : Option (List (String × Schema))) (pfx : String) :
    ∀ (l : List (String × String × OperationObject)) (init : String → Option String),
      ((∀ u, init u = none) ∨ (∃ cs, ∀ u, init u = some (joinWith u cs))) →
      ((∀ u, l.foldl (fun acc q =>
          match acc with
          | none => none
          | some a =>
            match opBlocksOf q.1 q.2.1 q.2.2 schemas pfx u with
            | none => none
            | some b => some (a ++ b)) (init u) = none) ∨
       (∃ cs, ∀ u, l.foldl (fun acc q =>
          match acc with
          | none => none
          | some a =>
            match opBlocksOf q.1 q.2.1 q.2.2 schemas pfx u with
            | none => none
            | some b => some (a ++ b)) (init u) = some (joinWith u cs))) := by
  intro l
  induction l with
  | nil =>
    intro init h
    simpa only [List.foldl_nil] using h
  | cons q l ih =>
    intro init h
    have hstep : (∀ u, (match init u with
          | none => none
          | some a =>
            match opBlocksOf q.1 q.2.1 q.2.2 schemas pfx u with
            | none => none
            | some b => some (a ++ b)) = none) ∨
        (∃ cs, ∀ u, (match init u with
          | none => none
          | some a =>
            match opBlocksOf q.1 q.2.1 q.2.2 schemas pfx u with
            | none => none
            | some b => some (a ++ b)) = some (joinWith u cs)) := by
      rcases h with h | ⟨cs, h⟩
      · left
        intro u
        rw [h u]
      · rcases opBlocksOf_splice q.1 q.2.1 q.2.2 schemas pfx with hb | ⟨cs2, hb⟩
        · left
          intro u
          rw [h u]
          dsimp only []
          rw [hb u]
        · right
          refine ⟨spliceCat cs cs2, ?_⟩
          intro u
          rw [h u]
          dsimp only []
          rw [hb u, joinWith_spliceCat]
    have hres := ih (fun u => match init u with
      | none => none
      | some a =>
        match opBlocksOf q.1 q.2.1 q.2.2 schemas pfx u with
        | none => none
        | some b => some (a ++ b)) hstep
    simpa only [List.foldl_cons] using hres

theorem blocksPass_splice (spec : OpenAPISpec) (tags : List String) (pfx : String) :
    (∀ u, blocksPass spec tags pfx u = none) ∨
    (∃ cs, ∀ u, blocksPass spec tags pfx u = some (joinWith u cs)) := by
  have h := foldBlocks_splice (spec.components.bind ComponentsObject.schemas) pfx
    (matchedOps spec tags) (fun _ => some "")
    (Or.inr ⟨[""], fun _ => rfl⟩)
  exact h

/-- C2 (corrected): the generated module text is a deterministic function of
the spec, tags, prefix, module name and the *clock reading*: for every fixed
spec/tags/prefix/module the output is either always `none` or a fixed chunk
sequence with the formatted update time spliced in at fixed positions
(`@更新时间` in every operation header), so two runs are byte-identical
exactly when their formatted clock readings agree — and two runs whose ISO
readings format to the same second are byte-identical.  Because the text
embeds `new Date()`, successive runs at different seconds differ, refuting
unconditional idempotence. -/
theorem c2_clock_splice :
    (∀ (spec : OpenAPISpec) (tags : List String) (pfx modName : String),
      (∀ u, generateTypesTextAt spec tags pfx modName u = none) ∨
      (∃ chunks, ∀ u, generateTypesTextAt spec tags pfx modName u =
        some (joinWith u chunks))) ∧
    (∀ (spec : OpenAPISpec) (tags : List String) (pfx modName iso1 iso2 : String),
      fmtUpdateTime iso1 = fmtUpdateTime iso2 →
      generateTypesText spec tags pfx modName iso1 =
        generateTypesText spec tags pfx modName iso2) := by
  constructor
  · intro spec tags pfx modName
    rcases blocksPass_splice spec tags pfx with h | ⟨cs, h⟩
    · left
      intro u
      rw [generateTypesTextAt]
      rw [h u]
    · right
      refine ⟨spliceCat ["/* eslint-disable */\n// Generated Types for " ++ modName ++
          "\n// DO NOT EDIT - This file is automatically generated\n\n" ++
          (collectPass spec tags).typeDefs] (spliceCat cs ["\n"]), ?_⟩
      intro u
      rw [generateTypesTextAt]
      rw [h u]
      rw [joinWith_spliceCat, joinWith_spliceCat]
      rw [show joinWith u ["/* eslint-disable */\n// Generated Types for " ++ modName ++
          "\n// DO NOT EDIT - This file is automatically generated\n\n" ++
          (collectPass spec tags).typeDefs] =
        "/* eslint-disable */\n// Generated Types for " ++ modName ++
          "\n// DO NOT EDIT - This file is automatically generated\n\n" ++
          (collectPass spec tags).typeDefs from rfl,
        show joinWith u ["\n"] = "\n" from rfl]
      simp [String.append_assoc]
  · intro spec tags pfx modName iso1 iso2 h
    rw [generateTypesText, generateTypesText, h]

set_option maxRecDepth 4000 in
/-- C2 counterexample: on the one-operation spec `c2spec`, two runs whose
clock readings fall on different days produce different bytes — the embedded
`@更新时间` timestamp makes successive generation runs differ. -/
theorem c2_counterexample :
    generateTypesText c2spec ["pets"] "Api" "pets" "2024-01-01T00:00:00.000Z" ≠
      generateTypesText c2spec ["pets"] "Api" "pets" "2024-01-02T00:00:00.000Z" := by
  decide

/-- Instantiation: two runs within the same second (ISO readings differing
only in milliseconds) format to the same update time and produce byte-identical
output on `c2spec`. -/
theorem c2_witness :
    fmtUpdateTime "2024-01-01T12:00:00.000Z" = fmtUpdateTime "2024-01-01T12:00:00.499Z" ∧
    generateTypesText c2spec ["pets"] "Api" "pets" "2024-01-01T12:00:00.000Z" =
      generateTypesText c2spec ["pets"] "Api" "pets" "2024-01-01T12:00:00.499Z" :=
  ⟨by decide, c2_clock_splice.2 c2spec ["pets"] "Api" "pets" _ _ (by decide)⟩
